import Mathlib

/-!
Verification of the SDRF extraction pipeline
(`src/Submissions/my_submission/pipeline.py`).

The pipeline fills a prediction template (`SampleSubmission.csv`) with
per-raw-file SDRF metadata extracted from manuscript text by a placeholder,
an OpenAI-backed, or an Ollama-backed extractor.

The embedding below mirrors the Python source.  Python values flowing
through the pipeline are modelled by the `Json` type (the pipeline only
manipulates values obtained from JSON documents, strings, and dicts built
by the code itself).  Python dicts are modelled as association lists with
insert-or-replace update, preserving insertion order exactly as Python
dicts do.  Code that can raise an exception is modelled in `Except PyErr`;
a `.error` value models an exception propagating to the caller.

Model boundaries (stated once here):
* floating point: JSON numbers are modelled by `Int`; fractional and
  exponent parts are parsed structurally but only the zero/non-zero
  distinction of the mantissa is retained (the pipeline never uses a
  numeric value except for Python truthiness and `len`, which raises on
  numbers); `NaN`/`Infinity` literals and `\u` string escapes are not
  modelled;
* `NaN` cells of a pandas DataFrame are not modelled: every cell holds a
  `Json` value;
* Python dict keys are modelled as strings.  Every dict built by the
  pipeline is keyed by filename strings; a non-string hashable key (which
  Python would admit) is modelled as a `typeError`, an unhashable key
  (list/dict) raises `typeError` exactly as in Python.
-/

/-- Model of a Python/JSON value as it flows through the pipeline. -/
inductive Json where
  | null : Json
  | bool (b : Bool) : Json
  | num (n : Int) : Json
  | str (s : String) : Json
  | arr (elems : List Json) : Json
  | obj (entries : List (String × Json)) : Json
deriving Repr

mutual

/-- Boolean equality on `Json` (structural). -/
def Json.beq : Json → Json → Bool
  | .null, .null => true
  | .bool a, .bool b => a == b
  | .num a, .num b => a == b
  | .str a, .str b => a == b
  | .arr xs, .arr ys => Json.beqList xs ys
  | .obj xs, .obj ys => Json.beqEntries xs ys
  | _, _ => false

/-- Boolean equality on lists of `Json`. -/
def Json.beqList : List Json → List Json → Bool
  | [], [] => true
  | x :: xs, y :: ys => Json.beq x y && Json.beqList xs ys
  | _, _ => false

/-- Boolean equality on `Json` object entry lists. -/
def Json.beqEntries : List (String × Json) → List (String × Json) → Bool
  | [], [] => true
  | (k, v) :: xs, (l, w) :: ys => k == l && Json.beq v w && Json.beqEntries xs ys
  | _, _ => false

end

instance : BEq Json := ⟨Json.beq⟩

/-- Python exceptions that the pipeline code can raise. -/
inductive PyErr where
  | typeError : PyErr
  | attributeError : PyErr
  | keyError : PyErr
  | jsonDecodeError : PyErr
  | fileNotFoundError : PyErr
  | apiError : PyErr
deriving DecidableEq, Repr

/-- Lookup in a Python dict modelled as an association list
(first — and only, thanks to insert-or-replace — matching key wins). -/
def lookupKV {α : Type} : List (String × α) → String → Option α
  | [], _ => none
  | (k, v) :: rest, key => if k = key then some v else lookupKV rest key

/-- Insert-or-replace into a Python dict modelled as an association list:
an existing key keeps its position (as in CPython dicts), a new key is
appended at the end. -/
def insertKV {α : Type} : List (String × α) → String → α → List (String × α)
  | [], key, v => [(key, v)]
  | (k, w) :: rest, key, v =>
    if k = key then (key, v) :: rest else (k, w) :: insertKV rest key v

/-- Python truthiness (`if x:`) of a pipeline value. -/
def pyTruthy : Json → Bool
  | .null => false
  | .bool b => b
  | .num n => n != 0
  | .str s => !s.toList.isEmpty
  | .arr xs => !xs.isEmpty
  | .obj kvs => !kvs.isEmpty

/-- Python `len`; raises `TypeError` on values with no length. -/
def pyLen : Json → Except PyErr Nat
  | .str s => .ok s.toList.length
  | .arr xs => .ok xs.length
  | .obj kvs => .ok kvs.length
  | _ => .error .typeError

/-! ## Python string helpers (modelled at the character-list level) -/

/-- The backtick character (written via its code point). -/
def backtick : Char := Char.ofNat 96

/-- ASCII whitespace stripped by Python `str.strip()`
(unicode whitespace is not modelled; the pipeline never produces it). -/
def pyIsSpace (c : Char) : Bool :=
  c = ' ' || c = '\t' || c = '\n' || c = '\r' || c = Char.ofNat 11 || c = Char.ofNat 12

/-- `str.strip()` on a character list. -/
def stripChars (cs : List Char) : List Char :=
  ((cs.dropWhile pyIsSpace).reverse.dropWhile pyIsSpace).reverse

/-- Python `s.strip()`. -/
def pyStrip (s : String) : String := String.mk (stripChars s.toList)

/-- Python slice `s[:n]`. -/
def pySlice (s : String) (n : Nat) : String := String.mk (s.toList.take n)

/-- Prepend a character to the first piece of a split result. -/
def consHead (c : Char) : List (List Char) → List (List Char)
  | [] => [[c]]
  | h :: t => (c :: h) :: t

/-- Python `text.split` with a triple-backtick separator: split on each
non-overlapping occurrence of the separator, left to right. -/
def splitFence : List Char → List (List Char)
  | [] => [[]]
  | c1 :: c2 :: c3 :: rest =>
    if c1 = backtick && c2 = backtick && c3 = backtick then [] :: splitFence rest
    else consHead c1 (splitFence (c2 :: c3 :: rest))
  | c :: rest => consHead c (splitFence rest)

/-- Scan the pieces of the fence split as the Python loop does: strip the
piece, drop a leading (case-insensitive) `json` language tag, and return the
first piece that then starts with an opening brace. -/
def pickFenced : List (List Char) → Option (List Char)
  | [] => none
  | p :: rest =>
    let q := stripChars p
    let q2 := if ("json".toList).isPrefixOf (q.map Char.toLower)
              then stripChars (q.drop 4) else q
    match q2 with
    | '{' :: _ => some q2
    | _ => pickFenced rest

/-- The markdown-fence stripping step of `_parse_llm_json_response`
(`pipeline.py` lines 195-203): if a triple backtick occurs, use the first
fenced piece that (after dropping a `json` tag) starts with `\x7b`;
otherwise keep the raw text. -/
def stripFence (s : String) : String :=
  let parts := splitFence s.toList
  if 2 ≤ parts.length then
    match pickFenced parts with
    | some p => String.mk p
    | none => s
  else s

/-! ## A model of Python `json.loads`

A fuel-indexed recursive-descent parser for the JSON fragment the pipeline
exercises: objects (duplicate keys resolved insert-or-replace, as CPython
dicts do), arrays, strings with the single-character escapes, integers,
numbers with fraction/exponent (only the zero/non-zero distinction of the
mantissa is retained), `true`/`false`/`null`.  `none` models
`json.JSONDecodeError`. -/

/-- Skip JSON whitespace (exactly space, tab, newline, carriage return). -/
def skipWs : List Char → List Char
  | [] => []
  | c :: cs => if c = ' ' || c = '\t' || c = '\n' || c = '\r' then skipWs cs else c :: cs

/-- Parse the body of a JSON string after the opening quote; returns the
decoded characters and the remaining input. -/
def parseStringBody : List Char → Option (List Char × List Char)
  | [] => none
  | c :: cs =>
    if c = '"' then some ([], cs)
    else if c = '\\' then
      match cs with
      | [] => none
      | e :: cs2 =>
        let ech : Option Char :=
          if e = '"' then some '"'
          else if e = '\\' then some '\\'
          else if e = '/' then some '/'
          else if e = 'n' then some '\n'
          else if e = 't' then some '\t'
          else if e = 'r' then some '\r'
          else if e = 'b' then some (Char.ofNat 8)
          else if e = 'f' then some (Char.ofNat 12)
          else none
        match ech with
        | none => none
        | some ch => (parseStringBody cs2).map (fun pr => (ch :: pr.1, pr.2))
    else if c.toNat < 32 then none
    else (parseStringBody cs).map (fun pr => (c :: pr.1, pr.2))

/-- Take a maximal run of decimal digits. -/
def takeDigits : List Char → (List Char × List Char)
  | [] => ([], [])
  | c :: cs =>
    if c.isDigit then
      let pr := takeDigits cs
      (c :: pr.1, pr.2)
    else ([], c :: cs)

/-- Decimal digits to a natural number. -/
def digitsToNat (ds : List Char) : Nat :=
  ds.foldl (fun n c => n * 10 + (c.toNat - 48)) 0

/-- Integer part of a JSON number: `0` or a nonzero digit followed by
digits (the JSON grammar forbids redundant leading zeros). -/
def parseIntDigits : List Char → Option (List Char × List Char)
  | [] => none
  | c :: cs =>
    if c = '0' then some (['0'], cs)
    else if c.isDigit then
      let pr := takeDigits cs
      some (c :: pr.1, pr.2)
    else none

/-- Parse a JSON number token.  The value is the signed mantissa (integer
and fraction digits); an exponent is consumed but ignored, so integers are
exact and a fractional number is `0` exactly when its mantissa is zero. -/
def parseNumber (cs : List Char) : Option (Json × List Char) :=
  let sgn : Bool × List Char :=
    match cs with
    | c :: t => if c = '-' then (true, t) else (false, cs)
    | [] => (false, cs)
  match parseIntDigits sgn.2 with
  | none => none
  | some (ids, r1) =>
    let frac : List Char × List Char :=
      match r1 with
      | '.' :: t =>
        match takeDigits t with
        | ([], _) => ([], r1)
        | (ds, rest) => (ds, rest)
      | _ => ([], r1)
    let r3 : List Char :=
      match frac.2 with
      | c :: t =>
        if c = 'e' || c = 'E' then
          let t2 : List Char :=
            match t with
            | s :: u => if s = '+' || s = '-' then u else t
            | [] => t
          match takeDigits t2 with
          | ([], _) => frac.2
          | (_, rest) => rest
        else frac.2
      | [] => frac.2
    let m : Nat := digitsToNat (ids ++ frac.1)
    some (Json.num (if sgn.1 then -(m : Int) else (m : Int)), r3)

mutual

/-- Parse one JSON value. -/
def parseVal : Nat → List Char → Option (Json × List Char)
  | 0, _ => none
  | f + 1, cs =>
    match skipWs cs with
    | [] => none
    | c :: rest =>
      if c = '{' then parseObjRest f rest
      else if c = '[' then parseArrRest f rest
      else if c = '"' then
        (parseStringBody rest).map (fun pr => (Json.str (String.mk pr.1), pr.2))
      else if c = 't' then
        match rest with
        | 'r' :: 'u' :: 'e' :: r => some (Json.bool true, r)
        | _ => none
      else if c = 'f' then
        match rest with
        | 'a' :: 'l' :: 's' :: 'e' :: r => some (Json.bool false, r)
        | _ => none
      else if c = 'n' then
        match rest with
        | 'u' :: 'l' :: 'l' :: r => some (Json.null, r)
        | _ => none
      else parseNumber (c :: rest)

/-- Parse an object after the opening brace. -/
def parseObjRest : Nat → List Char → Option (Json × List Char)
  | 0, _ => none
  | f + 1, cs =>
    match skipWs cs with
    | '}' :: r => some (Json.obj [], r)
    | other => parseMembers f other []

/-- Parse the members of a non-empty object. -/
def parseMembers : Nat → List Char → List (String × Json) → Option (Json × List Char)
  | 0, _, _ => none
  | f + 1, cs, acc =>
    match skipWs cs with
    | '"' :: rest =>
      match parseStringBody rest with
      | none => none
      | some (kcs, r1) =>
        match skipWs r1 with
        | ':' :: r2 =>
          match parseVal f r2 with
          | none => none
          | some (v, r3) =>
            let acc2 := insertKV acc (String.mk kcs) v
            match skipWs r3 with
            | ',' :: r4 => parseMembers f r4 acc2
            | '}' :: r4 => some (Json.obj acc2, r4)
            | _ => none
        | _ => none
    | _ => none

/-- Parse an array after the opening bracket. -/
def parseArrRest : Nat → List Char → Option (Json × List Char)
  | 0, _ => none
  | f + 1, cs =>
    match skipWs cs with
    | ']' :: r => some (Json.arr [], r)
    | other => parseElems f other []

/-- Parse the elements of a non-empty array. -/
def parseElems : Nat → List Char → List Json → Option (Json × List Char)
  | 0, _, _ => none
  | f + 1, cs, acc =>
    match parseVal f cs with
    | none => none
    | some (v, r1) =>
      match skipWs r1 with
      | ',' :: r2 => parseElems f r2 (acc ++ [v])
      | ']' :: r2 => some (Json.arr (acc ++ [v]), r2)
      | _ => none

end

/-- Model of `json.loads`: parse one value, allow trailing whitespace,

reject trailing data (`Extra data`).  `none` models `JSONDecodeError`. -/
def jsonParse (s : String) : Option Json :=
  let cs := s.toList
  match parseVal (2 * cs.length + 8) cs with
  | some (j, rest) => if (skipWs rest).isEmpty then some j else none
  | none => none

/-! ## Python value coercions and dict operations -/

mutual

/-- Python `repr` of a pipeline value (quote escaping inside strings is not
modelled; the pipeline only uses this coercion for logging-style output). -/
def pyRepr : Json → String
  | .null => "None"
  | .bool true => "True"
  | .bool false => "False"
  | .num n => toString n
  | .str s => "\x27" ++ s ++ "\x27"
  | .arr xs => "[" ++ pyReprList xs ++ "]"
  | .obj kvs => "\x7b" ++ pyReprEntries kvs ++ "\x7d"

/-- `repr` of the elements of a list, comma separated. -/
def pyReprList : List Json → String
  | [] => ""
  | [x] => pyRepr x
  | x :: xs => pyRepr x ++ ", " ++ pyReprList xs

/-- `repr` of the entries of a dict, comma separated. -/
def pyReprEntries : List (String × Json) → String
  | [] => ""
  | [kv] => "\x27" ++ kv.1 ++ "\x27: " ++ pyRepr kv.2
  | kv :: kvs => "\x27" ++ kv.1 ++ "\x27: " ++ pyRepr kv.2 ++ ", " ++ pyReprEntries kvs

end

/-- Python `str(x)`: the identity on strings, `repr` otherwise
(which agrees with `str` on every other pipeline value). -/
def pyStr : Json → String
  | .str s => s
  | j => pyRepr j

/-- Python `d.get(key, default)` where `key` is a pipeline value.
A non-dict receiver has no `get` attribute; an unhashable key (list/dict)
raises `TypeError`; any other non-string key misses every string-keyed
entry (see the model-boundary note at the top). -/
def pyGetD (d : Json) (key : Json) (dflt : Json) : Except PyErr Json :=
  match d with
  | .obj kvs =>
    match key with
    | .str s => .ok ((lookupKV kvs s).getD dflt)
    | .arr _ => .error .typeError
    | .obj _ => .error .typeError
    | _ => .ok dflt
  | _ => .error .attributeError

/-- Python `d.get(key)` with a string key and default `None`
(`none` models `None`). -/
def pyGetOpt (d : Json) (key : String) : Except PyErr (Option Json) :=
  match d with
  | .obj kvs => .ok (lookupKV kvs key)
  | _ => .error .attributeError

/-- Python iteration `for x in v`: lists yield elements, strings yield
their characters as one-character strings, dicts yield their keys;
anything else is not iterable. -/
def pyIter : Json → Except PyErr (List Json)
  | .arr xs => .ok xs
  | .str s => .ok (s.toList.map (fun c => Json.str (String.mk [c])))
  | .obj kvs => .ok (kvs.map (fun kv => Json.str kv.1))
  | _ => .error .typeError

/-- A pipeline value used as a dict key (see the model-boundary note:
the pipeline only ever builds string keys). -/
def asDictKey : Json → Except PyErr String
  | .str s => .ok s
  | _ => .error .typeError

/-- The accumulator loop of the dict comprehension. -/
def dictFromKeysAux : List Json → List (String × Json) → Except PyErr (List (String × Json))
  | [], acc => .ok acc
  | it :: rest, acc =>
    match asDictKey it with
    | .error e => .error e
    | .ok k => dictFromKeysAux rest (insertKV acc k (Json.obj []))

/-- Python dict comprehension over an iterable of filenames with empty-dict
values: the recurring `(raw: empty for raw in raw_files)` pattern. -/
def pyDictFromKeys (raws : Json) : Except PyErr Json :=
  match pyIter raws with
  | .error e => .error e
  | .ok items =>
    match dictFromKeysAux items [] with
    | .error e => .error e
    | .ok entries => .ok (Json.obj entries)

/-- The same dict comprehension specialised to a Python list of strings;
`pyDictFromKeys` reduces to it on such a list. -/
def emptyEntriesFor (files : List String) : List (String × Json) :=
  files.foldl (fun acc r => insertKV acc r (Json.obj [])) []

/-! ## Response normalization (`_parse_llm_json_response`) -/

/-- The value-wrapping loop body: a string value becomes a one-element
list, every other value is left unchanged (`pipeline.py` lines 209-211). -/
def normalizeVals (kvs : List (String × Json)) : List (String × Json) :=
  kvs.map (fun kv =>
    match kv.2 with
    | .str s => (kv.1, Json.arr [Json.str s])
    | _ => kv)

/-- The post-parse loop of `_parse_llm_json_response`
(`for raw in out: for k, v in list(out[raw].items()): ...`), with Python's
dynamic semantics on a non-dict parse result:
* a dict whose values are all dicts: wrap string leaves, succeed;
* a dict with a non-dict value: `.items()` raises `AttributeError`;
* the empty list and the empty string: the loop runs zero times and the
  value is returned unchanged;
* a non-empty string: indexing the string with one of its characters
  raises `TypeError` on the first iteration;
* a non-empty list: every completion path raises (indexing the list with a
  non-integer element, an out-of-range integer element, or calling
  `.items()` on a non-dict element), modelled as `TypeError`;
* `None`, booleans and numbers are not iterable: `TypeError`. -/
def normalizeEntries : List (String × Json) → Except PyErr (List (String × Json))
  | [] => .ok []
  | kv :: rest =>
    match kv.2 with
    | .obj inner =>
      match normalizeEntries rest with
      | .ok out => .ok ((kv.1, Json.obj (normalizeVals inner)) :: out)
      | .error e => .error e
    | _ => .error .attributeError

/-- The dispatch on the parsed value; see the case analysis above. -/
def pyNormalize : Json → Except PyErr Json
  | .obj kvs =>
    match normalizeEntries kvs with
    | .ok kvs2 => .ok (.obj kvs2)
    | .error e => .error e
  | .arr [] => .ok (.arr [])
  | .str s => if s.toList.isEmpty then .ok (.str s) else .error .typeError
  | .arr (_ :: _) => .error .typeError
  | _ => .error .typeError

/-- `_parse_llm_json_response` (`pipeline.py` lines 191-212): strip an
optional markdown fence, parse the candidate as JSON — on
`JSONDecodeError` return an empty mapping for every requested filename —
then normalize string values to one-element lists. -/
def parseLlmJsonResponse (rawResponse : String) (rawFiles : Json) : Except PyErr Json :=
  match jsonParse (stripFence rawResponse) with
  | none => pyDictFromKeys rawFiles
  | some out => pyNormalize out

/-! ## The Row Filler (`SDRFPipeline._sdrf_to_row`) -/

/-- The literal fallback value. -/
def notApplicable : Json := Json.str "Not Applicable"

/-- The per-column loop of `_sdrf_to_row` (`pipeline.py` lines 261-266),
threading the row dict being built:
`vals = meta.get(col)`; `if vals and len(vals) > 0:` (short-circuit: `len`
is only reached on a truthy value, and raises `TypeError` on a number);
`row[col] = vals[0] if isinstance(vals, list) else str(vals)`;
`else: row[col] = "Not Applicable"`. -/
def fillRow (meta : Json) : List String → List (String × Json) →
    Except PyErr (List (String × Json))
  | [], row => .ok row
  | col :: rest, row =>
    match pyGetOpt meta col with
    | .error e => .error e
    | .ok none => fillRow meta rest (insertKV row col notApplicable)
    | .ok (some v) =>
      if pyTruthy v then
        match pyLen v with
        | .error e => .error e
        | .ok n =>
          if 0 < n then
            let cell : Json :=
              match v with
              | .arr xs => xs.headD notApplicable
              | _ => .str (pyStr v)
            fillRow meta rest (insertKV row col cell)
          else fillRow meta rest (insertKV row col notApplicable)
      else fillRow meta rest (insertKV row col notApplicable)

/-- `SDRFPipeline._sdrf_to_row` (`pipeline.py` lines 253-267):
`meta = sdrf_per_file.get(raw_file, ())` then the per-column fill. -/
def sdrfToRow (rawFile : Json) (sdrfPerFile : Json) (predColumns : List String) :
    Except PyErr (List (String × Json)) :=
  match pyGetD sdrfPerFile rawFile (Json.obj []) with
  | .error e => .error e
  | .ok meta => fillRow meta predColumns []

/-! ## Configuration and extraction strategies -/

/-- `MANUSCRIPT_MAX_CHARS` (`pipeline.py` line 26). -/
def MANUSCRIPT_MAX_CHARS : Nat := 120000

/-- `PREDICTION_COLUMNS_EXCLUDE` (`pipeline.py` line 27). -/
def PREDICTION_COLUMNS_EXCLUDE : List String := ["ID", "PXD", "Raw Data File", "Usage"]

/-- `MANUSCRIPT_KEYS` (`pipeline.py` line 28). -/
def MANUSCRIPT_KEYS : List String := ["TITLE", "ABSTRACT", "METHODS"]

/-- Environment-derived configuration (`Config.__init__`, `pipeline.py`
lines 45-57); the string values are stored already stripped, as the
constructor strips them. -/
structure Config where
  llm_provider : String
  openai_api_key : String
  openai_model : String
  ollama_model : String
  ollama_base_url : String
deriving Repr

/-- `Config.effective_provider` (lines 74-77). -/
def Config.effective_provider (c : Config) : String := c.llm_provider

/-- The single chat-completion request an extractor can issue. -/
structure ChatRequest where
  model : String
  systemMsg : String
  userMsg : String
  temperature : Nat
deriving Repr

/-- An Ollama HTTP POST outcome: an exception from the HTTP client
(connection error or timeout), or a response with status code and body. -/
inductive OllamaNet where
  | netFail : OllamaNet
  | response (status : Nat) (body : String) : OllamaNet
deriving Repr

/-- The request posted to the local chat endpoint. -/
structure OllamaRequest where
  url : String
  model : String
  systemMsg : String
  userMsg : String
  stream : Bool
  timeout : Nat
deriving Repr

/-- The elements of an iterable, required to be strings. -/
def strListOf : List Json → Except PyErr (List String)
  | [] => .ok []
  | Json.str s :: rest =>
    match strListOf rest with
    | .ok ss => .ok (s :: ss)
    | .error e => .error e
  | _ :: _ => .error .typeError

/-- Python `"\n".join(raw_files)`: raises `TypeError` unless the iterable
yields only strings. -/
def pyJoinLines (raws : Json) : Except PyErr String :=
  match pyIter raws with
  | .error e => .error e
  | .ok items =>
    match strListOf items with
    | .ok strs => .ok (String.intercalate "\n" strs)
    | .error e => .error e

/-- The user message of both LLM extractors (lines 135-137 and 167-169):
the manuscript text truncated to `MANUSCRIPT_MAX_CHARS` plus the
newline-joined filename list. -/
def userContent (manuscriptText : String) (raws : Json) : Except PyErr String :=
  match pyJoinLines raws with
  | .error e => .error e
  | .ok joined =>
    .ok ("MANUSCRIPT_TEXT:\n" ++ pySlice manuscriptText MANUSCRIPT_MAX_CHARS
      ++ "\n\nRAW_FILES:\n" ++ joined)

/-- `PlaceholderExtractor.extract` (lines 105-114): an empty per-file
mapping, no LLM involved. -/
def PlaceholderExtractor.extract (manuscriptText : String) (rawFiles : Json)
    (promptSpec : String) : Except PyErr Json :=
  pyDictFromKeys rawFiles

/-- `OpenAIExtractor.extract` (lines 117-147).  The chat completion is an
oracle `net`; its `.ok` payload is the message content after the
`or ""` default, an `.error` models an exception raised by the client,
which this extractor does not catch.  The first component logs the
requests issued: the no-credential path makes none.  (`self._client` is
`None` exactly when the configured key is empty, so the guard on line 132
reduces to an empty-key test.) -/
def OpenAIExtractor.extract (cfg : Config) (net : ChatRequest → Except PyErr String)
    (manuscriptText : String) (rawFiles : Json) (promptSpec : String) :
    List ChatRequest × Except PyErr Json :=
  if cfg.openai_api_key = "" then
    ([], pyDictFromKeys rawFiles)
  else
    match userContent manuscriptText rawFiles with
    | .error e => ([], .error e)
    | .ok uc =>
      let req : ChatRequest := ⟨cfg.openai_model, promptSpec, uc, 0⟩
      match net req with
      | .error e => ([req], .error e)
      | .ok content => ([req], parseLlmJsonResponse (pyStrip content) rawFiles)

/-- The body handling inside the `try` of `OllamaExtractor.extract`
(line 185): `(r.json().get("message", {}).get("content") or "").strip()`.
`none` models an exception raised inside the `try` (and therefore caught):
`.get` on a non-dict, or `.strip()` on a truthy non-string content. -/
def ollamaContent (bj : Json) : Option String :=
  match bj with
  | .obj kvs =>
    match (lookupKV kvs "message").getD (Json.obj []) with
    | .obj mkvs =>
      match lookupKV mkvs "content" with
      | none => some ""
      | some v =>
        if pyTruthy v then
          match v with
          | .str s => some (pyStrip s)
          | _ => none
        else some ""
    | _ => none
  | _ => none

/-- `OllamaExtractor.extract` (lines 154-188).  The HTTP POST is an oracle
`net`.  Everything inside the `try` — the POST itself, `raise_for_status`
(which raises exactly on statuses 400-599), body JSON decoding, and
content extraction — degrades to the empty per-file mapping on failure;
the final `_parse_llm_json_response` call is outside the `try`. -/
def OllamaExtractor.extract (cfg : Config) (net : OllamaRequest → OllamaNet)
    (manuscriptText : String) (rawFiles : Json) (promptSpec : String) :
    List OllamaRequest × Except PyErr Json :=
  match userContent manuscriptText rawFiles with
  | .error e => ([], .error e)
  | .ok uc =>
    let req : OllamaRequest :=
      ⟨cfg.ollama_base_url ++ "/api/chat", cfg.ollama_model, promptSpec, uc, false, 300⟩
    let rawResponse : Option String :=
      match net req with
      | .netFail => none
      | .response status body =>
        if 400 ≤ status && status < 600 then none
        else
          match jsonParse body with
          | none => none
          | some bj => ollamaContent bj
    match rawResponse with
    | none => ([req], pyDictFromKeys rawFiles)
    | some s => ([req], parseLlmJsonResponse s rawFiles)

/-- The extraction strategy chosen by the factory. -/
inductive Extractor where
  | placeholderE : Extractor
  | openaiE (cfg : Config) : Extractor
  | ollamaE (cfg : Config) : Extractor
deriving Repr

/-- `get_extractor` (lines 215-222): the configured provider is consulted
only when the prompt specification is truthy (non-empty). -/
def get_extractor (config : Config) (promptSpec : String) : Extractor :=
  let provider := if promptSpec = "" then "" else config.effective_provider
  if provider = "openai" then .openaiE config
  else if provider = "ollama" then .ollamaE config
  else .placeholderE

/-! ## The pipeline orchestrator (`SDRFPipeline.run`) -/

/-- One row of the template DataFrame: the integer label of the index
column (`index_col=0`) and the named cells. -/
structure Row where
  idx : Nat
  cells : List (String × Json)
deriving Repr

/-- The template DataFrame delivered by `pd.read_csv(..., index_col=0)`. -/
structure Table where
  columns : List String
  rows : List Row
deriving Repr

/-- The external world the pipeline touches: the template file, the
baseline prompt file, one PubText file (raw content) per manuscript
identifier, and the two chat backends. -/
structure Env where
  sampleSubmission : Option Table
  baselinePrompt : Option String
  pubtext : String → Option String
  openaiNet : ChatRequest → Except PyErr String
  ollamaNet : OllamaRequest → OllamaNet

/-- `_load_baseline_prompt` (lines 236-239): the prompt file's content,
or the empty string when the file is absent. -/
def loadBaselinePrompt (env : Env) : String := (env.baselinePrompt).getD ""

/-- `_get_manuscript_text` (lines 248-251): the stripped truthy sections,
in the fixed key order, joined by blank lines.  A non-dict document has no
`.get` and a truthy non-string section has no `.strip()`
(`AttributeError`). -/
def sectionParts (kvs : List (String × Json)) : List String → Except PyErr (List String)
  | [] => .ok []
  | k :: rest =>
    match lookupKV kvs k with
    | none => sectionParts kvs rest
    | some v =>
      if pyTruthy v then
        match v with
        | .str s =>
          match sectionParts kvs rest with
          | .ok parts => .ok (pyStrip s :: parts)
          | .error e => .error e
        | _ => .error .attributeError
      else sectionParts kvs rest

/-- The dispatch of `_get_manuscript_text` on the loaded document. -/
def getManuscriptText (doc : Json) : Except PyErr String :=
  match doc with
  | .obj kvs =>
    match sectionParts kvs MANUSCRIPT_KEYS with
    | .ok parts => .ok (String.intercalate "\n\n" parts)
    | .error e => .error e
  | _ => .error .attributeError

/-- The `PXD` cell of a row (the `groupby` key). -/
def pxdOf (r : Row) : Json := (lookupKV r.cells "PXD").getD Json.null

/-- First-occurrence deduplication (pandas `unique`). -/
def uniqueJson (l : List Json) : List Json :=
  l.foldl (fun acc x => if acc.any (fun y => Json.beq y x) then acc else acc ++ [x]) []

/-- `sub.groupby("PXD")`: the distinct group keys with their rows, each
group keeping the template's row order.  pandas iterates groups in sorted
key order; since each row's output cells depend only on its own group, the
group order is observationally irrelevant, and groups are listed here in
first-appearance order. -/
def groupRows (rows : List Row) : List (Json × List Row) :=
  (uniqueJson (rows.map pxdOf)).map
    (fun k => (k, rows.filter (fun r => Json.beq (pxdOf r) k)))

/-- `group["Raw Data File"]` for each row of a group (pandas raises
`KeyError` when the column is absent; modelled per row). -/
def rawFilesOf : List Row → Except PyErr (List Json)
  | [] => .ok []
  | r :: rest =>
    match lookupKV r.cells "Raw Data File" with
    | none => .error .keyError
    | some v =>
      match rawFilesOf rest with
      | .error e => .error e
      | .ok vs => .ok (v :: vs)

/-- The per-group preparation of `run` (lines 286-295): candidate raw
files from the group's rows (`unique().tolist()`), manuscript loading
(`_load_pubtext`, lines 241-246: a missing file yields `None`; a present
file is parsed with `json.load`, whose failure raises `JSONDecodeError`),
manuscript text extraction, and the `"Raw Data Files"` override.  Returns
the manuscript text, the value passed as `raw_files` to the extractor, and
whether the missing-PubText warning was printed. -/
def groupCall (env : Env) (pxd : Json) (grows : List Row) :
    Except PyErr (String × Json × Bool) :=
  match rawFilesOf grows with
  | .error e => .error e
  | .ok templ =>
    let rawFiles := Json.arr (uniqueJson templ)
    match env.pubtext (pyStr pxd) with
    | none => .ok ("", rawFiles, true)
    | some content =>
      match jsonParse content with
      | none => .error .jsonDecodeError
      | some doc =>
        match getManuscriptText doc with
        | .error e => .error e
        | .ok text =>
          let raws :=
            match doc with
            | .obj kvs => (lookupKV kvs "Raw Data Files").getD rawFiles
            | _ => rawFiles
          .ok (text, raws, false)

/-- Dispatch `self._extractor.extract(...)` for the chosen strategy. -/
def runExtractor (ex : Extractor) (env : Env) (text : String) (raws : Json)
    (promptSpec : String) : Except PyErr Json :=
  match ex with
  | .placeholderE => PlaceholderExtractor.extract text raws promptSpec
  | .openaiE cfg => (OpenAIExtractor.extract cfg env.openaiNet text raws promptSpec).2
  | .ollamaE cfg => (OllamaExtractor.extract cfg env.ollamaNet text raws promptSpec).2

/-- `out_df.at[idx, col] = v`: set the cell of every row carrying the
index label (labels are unique in the intended templates). -/
def updateCell (rows : List Row) (idx : Nat) (col : String) (v : Json) : List Row :=
  rows.map (fun r => if r.idx = idx then ⟨r.idx, insertKV r.cells col v⟩ else r)

/-- The write-back loop (lines 304-305):
`for col in pred_columns: out_df.at[idx, col] = row_vals[col]`
(a missing key in `row_vals` would raise `KeyError`). -/
def applyCols (idx : Nat) (vals : List (String × Json)) :
    List String → List Row → Except PyErr (List Row)
  | [], rows => .ok rows
  | c :: rest, rows =>
    match lookupKV vals c with
    | none => .error .keyError
    | some v => applyCols idx vals rest (updateCell rows idx c v)

/-- The per-row fill loop of `run` (lines 300-305). -/
def fillGroupRows (sdrf : Json) (predCols : List String) :
    List Row → List Row → Except PyErr (List Row)
  | [], rows => .ok rows
  | r :: rs, rows =>
    match lookupKV r.cells "Raw Data File" with
    | none => .error .keyError
    | some rf =>
      match sdrfToRow rf sdrf predCols with
      | .error e => .error e
      | .ok vals =>
        match applyCols r.idx vals predCols rows with
        | .error e => .error e
        | .ok rows2 => fillGroupRows sdrf predCols rs rows2

/-- A record of one extraction invocation. -/
structure ExtractCall where
  text : String
  raws : Json
  promptSpec : String
deriving Repr

/-- The group loop of `run` (lines 286-305), accumulating (in order) the
extraction calls made and the warnings printed before any exception. -/
def loopGroups (ex : Extractor) (env : Env) (promptSpec : String)
    (predCols : List String) :
    List (Json × List Row) → List Row →
    List ExtractCall × List String × Except PyErr (List Row)
  | [], rows => ([], [], .ok rows)
  | (pxd, grows) :: rest, rows =>
    match groupCall env pxd grows with
    | .error e => ([], [], .error e)
    | .ok (text, raws, warned) =>
      let warns := if warned then [pyStr pxd] else []
      let call : ExtractCall := ⟨text, raws, promptSpec⟩
      match runExtractor ex env text raws promptSpec with
      | .error e => ([call], warns, .error e)
      | .ok sdrf =>
        match fillGroupRows sdrf predCols grows rows with
        | .error e => ([call], warns, .error e)
        | .ok rows2 =>
          let res := loopGroups ex env promptSpec predCols rest rows2
          (call :: res.1, warns ++ res.2.1, res.2.2)

/-- The observable outcome of a run: the extraction calls, the printed
warnings, and the table written to `submission.csv` (or the exception the
run raised, in which case nothing is written). -/
structure RunTrace where
  calls : List ExtractCall
  warnings : List String
  result : Except PyErr Table
deriving Repr

/-- `pred_columns` (lines 278-280). -/
def predColumnsOf (columns : List String) : List String :=
  columns.filter (fun c => !(PREDICTION_COLUMNS_EXCLUDE.contains c))

/-- `SDRFPipeline.run` (lines 269-311) together with the constructor
steps it depends on (lines 231-234: prompt loading and extractor choice).
A missing template raises `FileNotFoundError` before anything else;
`groupby` raises `KeyError` when the `PXD` column is absent.  The final
optional scoring step (lines 310 and 313-329) only prints and swallows
every exception, so it does not appear in the trace. -/
def SDRFPipeline.run (cfg : Config) (env : Env) : RunTrace :=
  match env.sampleSubmission with
  | none => ⟨[], [], .error .fileNotFoundError⟩
  | some sub =>
    let promptSpec := loadBaselinePrompt env
    let ex := get_extractor cfg promptSpec
    let predCols := predColumnsOf sub.columns
    if sub.columns.contains "PXD" then
      let res := loopGroups ex env promptSpec predCols (groupRows sub.rows) sub.rows
      ⟨res.1, res.2.1, (res.2.2).map (fun rows => ⟨sub.columns, rows⟩)⟩
    else ⟨[], [], .error .keyError⟩

/-! ## Statement helpers (used to phrase the claims) -/

/-- Is this value a JSON object? -/
def Json.isObj : Json → Bool
  | .obj _ => true
  | _ => false

/-- The value the amended row-filler claim predicts for a column, given
the file's column map whose values are all sequences: the first element of
a non-empty candidate sequence, the fallback otherwise. -/
def rowExpected (cs : List (String × Json)) (col : String) : Json :=
  match lookupKV cs col with
  | some (Json.arr (x :: _)) => x
  | _ => notApplicable

/-- Every row of a template names its raw file with a string cell. -/
def RawFilesAreStrings (rows : List Row) : Prop :=
  ∀ r ∈ rows, ∃ s, lookupKV r.cells "Raw Data File" = some (Json.str s)

/-- A loadable manuscript document for a group key: absent, or valid JSON
for an object whose truthy sections are strings and whose optional
`"Raw Data Files"` override is a list of strings. -/
def DocOK (env : Env) (pxd : Json) : Prop :=
  match env.pubtext (pyStr pxd) with
  | none => True
  | some content =>
    ∃ kvs, jsonParse content = some (Json.obj kvs) ∧
      (∃ t, getManuscriptText (Json.obj kvs) = .ok t) ∧
      (∀ v, lookupKV kvs "Raw Data Files" = some v →
        ∃ files : List String, v = Json.arr (files.map Json.str))

/-! # Theorems

First the correctness of `Json.beq`, then general lemmas about the
association-list dict model, then the claim theorems. -/

mutual

theorem Json.eq_of_beq : ∀ {a b : Json}, Json.beq a b = true → a = b
  | .null, .null, _ => rfl
  | .bool _, .bool _, h => by
    simp only [Json.beq, beq_iff_eq] at h; exact h ▸ rfl
  | .num _, .num _, h => by
    simp only [Json.beq, beq_iff_eq] at h; exact h ▸ rfl
  | .str _, .str _, h => by
    simp only [Json.beq, beq_iff_eq] at h; exact h ▸ rfl
  | .arr xs, .arr ys, h => by
    have := @Json.eqList_of_beq xs ys (by exact h)
    exact this ▸ rfl
  | .obj xs, .obj ys, h => by
    have := @Json.eqEntries_of_beq xs ys (by exact h)
    exact this ▸ rfl

theorem Json.eqList_of_beq : ∀ {xs ys : List Json}, Json.beqList xs ys = true → xs = ys
  | [], [], _ => rfl
  | x :: xs, y :: ys, h => by
    simp only [Json.beqList, Bool.and_eq_true] at h
    have h1 := Json.eq_of_beq h.1
    have h2 := Json.eqList_of_beq h.2
    rw [h1, h2]

theorem Json.eqEntries_of_beq :
    ∀ {xs ys : List (String × Json)}, Json.beqEntries xs ys = true → xs = ys
  | [], [], _ => rfl
  | (k, v) :: xs, (l, w) :: ys, h => by
    simp only [Json.beqEntries, Bool.and_eq_true, beq_iff_eq] at h
    have h1 := Json.eq_of_beq h.1.2
    have h2 := Json.eqEntries_of_beq h.2
    rw [h.1.1, h1, h2]

end

mutual

theorem Json.beq_refl : ∀ a : Json, Json.beq a a = true
  | .null => rfl
  | .bool b => by simp [Json.beq]
  | .num n => by simp [Json.beq]
  | .str s => by simp [Json.beq]
  | .arr xs => Json.beqList_refl xs
  | .obj xs => Json.beqEntries_refl xs

theorem Json.beqList_refl : ∀ xs : List Json, Json.beqList xs xs = true
  | [] => rfl
  | x :: xs => by
    simp only [Json.beqList, Bool.and_eq_true]
    exact ⟨Json.beq_refl x, Json.beqList_refl xs⟩

theorem Json.beqEntries_refl : ∀ xs : List (String × Json), Json.beqEntries xs xs = true
  | [] => rfl
  | (k, v) :: xs => by
    simp [Json.beqEntries, Json.beq_refl v, Json.beqEntries_refl xs]

end

theorem Json.beq_iff {a b : Json} : Json.beq a b = true ↔ a = b :=
  ⟨Json.eq_of_beq, fun h => h ▸ Json.beq_refl a⟩

theorem lookupKV_insertKV {α : Type} (l : List (String × α)) (key k : String) (v : α) :
    lookupKV (insertKV l key v) k = if key = k then some v else lookupKV l k := by
  induction l with
  | nil => by_cases h : key = k <;> simp [insertKV, lookupKV, h]
  | cons hd tl ih =>
    obtain ⟨a, b⟩ := hd
    by_cases hak : a = key
    · subst hak
      by_cases hk : a = k <;> simp [insertKV, lookupKV, hk]
    · by_cases hk : a = k
      · subst hk
        have hka : ¬ key = a := fun h => hak h.symm
        simp [insertKV, lookupKV, hak, hka]
      · simp [insertKV, lookupKV, hak, hk, ih]

theorem mem_insertKV {α : Type} {p : String × α} {key : String} {v : α} :
    ∀ {l : List (String × α)}, p ∈ insertKV l key v → p = (key, v) ∨ p ∈ l := by
  intro l
  induction l with
  | nil => intro h; simp [insertKV] at h; exact Or.inl h
  | cons hd tl ih =>
    obtain ⟨a, b⟩ := hd
    by_cases hak : a = key
    · subst hak
      intro h
      simp only [insertKV, if_pos] at h
      rcases List.mem_cons.mp h with h | h
      · exact Or.inl h
      · exact Or.inr (List.mem_cons_of_mem _ h)
    · intro h
      simp only [insertKV, if_neg hak] at h
      rcases List.mem_cons.mp h with h | h
      · exact Or.inr (by simp [h])
      · rcases ih h with h2 | h2
        · exact Or.inl h2
        · exact Or.inr (List.mem_cons_of_mem _ h2)

theorem lookupKV_mem {α : Type} :
    ∀ {l : List (String × α)} {k : String} {v : α}, lookupKV l k = some v → (k, v) ∈ l := by
  intro l
  induction l with
  | nil => intro k v h; simp [lookupKV] at h
  | cons hd tl ih =>
    obtain ⟨a, b⟩ := hd
    intro k v h
    by_cases hak : a = k
    · subst hak
      simp [lookupKV] at h
      simp [h]
    · simp [lookupKV, hak] at h
      exact List.mem_cons_of_mem _ (ih h)

theorem lookupKV_foldl_insert (f : String → Json) :
    ∀ (cols : List String) (row : List (String × Json)) (k : String),
    lookupKV (cols.foldl (fun r c => insertKV r c (f c)) row) k =
      if k ∈ cols then some (f k) else lookupKV row k := by
  intro cols
  induction cols with
  | nil => intro row k; simp
  | cons c t ih =>
    intro row k
    simp only [List.foldl_cons]
    rw [ih]
    by_cases hkt : k ∈ t
    · simp [hkt, List.mem_cons]
    · by_cases hkc : c = k
      · subst hkc
        simp [hkt, lookupKV_insertKV]
      · have hnc : ¬ k ∈ (c :: t) := by
          simp only [List.mem_cons]
          rintro (h | h)
          · exact hkc h.symm
          · exact hkt h
        simp [hkt, hnc, lookupKV_insertKV, hkc]

theorem mem_foldl_insert (f : String → Json) :
    ∀ (cols : List String) (row : List (String × Json)) (p : String × Json),
    p ∈ cols.foldl (fun r c => insertKV r c (f c)) row → p.1 ∈ cols ∨ p ∈ row := by
  intro cols
  induction cols with
  | nil => intro row p h; exact Or.inr (by simpa using h)
  | cons c t ih =>
    intro row p h
    simp only [List.foldl_cons] at h
    rcases ih _ _ h with h1 | h1
    · exact Or.inl (List.mem_cons_of_mem _ h1)
    · rcases mem_insertKV h1 with h2 | h2
      · left; simp [h2]
      · exact Or.inr h2

theorem dictFromKeysAux_strings :
    ∀ (files : List String) (acc : List (String × Json)),
    dictFromKeysAux (files.map Json.str) acc =
      .ok (files.foldl (fun a r => insertKV a r (Json.obj [])) acc) := by
  intro files
  induction files with
  | nil => intro acc; simp [dictFromKeysAux]
  | cons f t ih => intro acc; simp [dictFromKeysAux, asDictKey, ih]

theorem pyDictFromKeys_strings (files : List String) :
    pyDictFromKeys (Json.arr (files.map Json.str)) =
      .ok (Json.obj (emptyEntriesFor files)) := by
  simp [pyDictFromKeys, pyIter, dictFromKeysAux_strings, emptyEntriesFor]

theorem emptyEntriesFor_aux_values :
    ∀ (files : List String) (acc : List (String × Json)),
    (∀ p ∈ acc, p.2 = Json.obj []) →
    ∀ p ∈ files.foldl (fun a r => insertKV a r (Json.obj [])) acc, p.2 = Json.obj [] := by
  intro files
  induction files with
  | nil => intro acc hacc; simpa using hacc
  | cons f t ih =>
    intro acc hacc p hp
    refine ih _ ?_ p hp
    intro q hq
    rcases mem_insertKV hq with h | h
    · simp [h]
    · exact hacc q h

theorem emptyEntriesFor_values (files : List String) :
    ∀ p ∈ emptyEntriesFor files, p.2 = Json.obj [] :=
  emptyEntriesFor_aux_values files [] (by simp)

theorem lookupKV_emptyEntriesFor (files : List String) (k : String) :
    lookupKV (emptyEntriesFor files) k =
      if k ∈ files then some (Json.obj []) else none := by
  have h := lookupKV_foldl_insert (fun _ => Json.obj []) files [] k
  simpa [emptyEntriesFor, lookupKV] using h

theorem fillRow_allseq {cs : List (String × Json)}
    (hseq : ∀ p ∈ cs, ∃ xs, p.2 = Json.arr xs) :
    ∀ (cols : List String) (row : List (String × Json)),
    fillRow (Json.obj cs) cols row =
      .ok (cols.foldl (fun r c => insertKV r c (rowExpected cs c)) row) := by
  intro cols
  induction cols with
  | nil => intro row; simp [fillRow]
  | cons col t ih =>
    intro row
    simp only [List.foldl_cons]
    cases hl : lookupKV cs col with
    | none =>
      have hexp : rowExpected cs col = notApplicable := by simp [rowExpected, hl]
      simp [fillRow, pyGetOpt, hl, ih, hexp]
    | some v =>
      obtain ⟨xs, hv⟩ := hseq (col, v) (lookupKV_mem hl)
      simp only at hv
      subst hv
      cases xs with
      | nil =>
        have hexp : rowExpected cs col = notApplicable := by simp [rowExpected, hl]
        simp [fillRow, pyGetOpt, hl, pyTruthy, ih, hexp]
      | cons x t2 =>
        have hexp : rowExpected cs col = x := by simp [rowExpected, hl]
        simp [fillRow, pyGetOpt, hl, pyTruthy, pyLen, ih, hexp]

/-- Claim C9 (confirmed).  Response Normalizer round-trip on a fenced
response: on the input consisting of a markdown code fence with language
tag `json` around the object mapping `f.raw` to a column map sending
`col` to the scalar string `v`, the normalizer strips the fence and tag,
parses the object, and wraps the scalar into a one-element sequence. -/
theorem c9_normalizer_round_trip :
    parseLlmJsonResponse "```json\n\x7b\"f.raw\": \x7b\"col\": \"v\"\x7d\x7d\n```"
        (Json.arr [Json.str "f.raw"]) =
      .ok (Json.obj [("f.raw", Json.obj [("col", Json.arr [Json.str "v"])])]) := rfl

/-- Claim C10 (confirmed).  Totality gap in the Row Filler: the normalizer
leaves a numeric candidate value unwrapped (it only wraps string
scalars), and the Row Filler's truthiness test then reaches `len()` on
that number, raising `TypeError` instead of producing a row — so a valid
JSON response with a numeric scalar aborts instead of degrading. -/
theorem c10_totality_gap :
    parseLlmJsonResponse "\x7b\"f.raw\": \x7b\"col\": 5\x7d\x7d" (Json.arr [Json.str "f.raw"]) =
      .ok (Json.obj [("f.raw", Json.obj [("col", Json.num 5)])]) ∧
    sdrfToRow (Json.str "f.raw") (Json.obj [("f.raw", Json.obj [("col", Json.num 5)])])
        ["col"] = .error .typeError :=
  ⟨rfl, rfl⟩

/-- Claim C2 counterexample.  The input `5` parses to a JSON value that is
not an object, and on it the normalizer raises `TypeError` (iterating a
number) instead of returning the empty mapping for the requested
filename — refuting the claim that a non-object parse yields an empty
mapping and never raises. -/
theorem c2_counterexample :
    (jsonParse (stripFence "5")).map Json.isObj = some false ∧
    parseLlmJsonResponse "5" (Json.arr [Json.str "a.raw"]) = .error .typeError :=
  ⟨rfl, rfl⟩

/-- Claim C2 (corrected).  For every input string whose candidate text
(after fence stripping) fails to parse as JSON, and every requested
filename list, the normalizer returns a mapping assigning an empty column
mapping to every requested filename, raising nothing; a candidate that
parses successfully to a non-object is instead not handled (see the
counterexample). -/
theorem c2_normalizer_failure_amended (s : String) (files : List String)
    (h : jsonParse (stripFence s) = none) :
    parseLlmJsonResponse s (Json.arr (files.map Json.str)) =
      .ok (Json.obj (emptyEntriesFor files)) := by
  simp [parseLlmJsonResponse, h, pyDictFromKeys_strings]

/-- Witness for C2: the spec's own example `no data` fails to parse and
yields the empty mapping for both requested filenames. -/
theorem c2_normalizer_failure_witness :
    parseLlmJsonResponse "no data" (Json.arr [Json.str "a.raw", Json.str "b.raw"]) =
      .ok (Json.obj [("a.raw", Json.obj []), ("b.raw", Json.obj [])]) :=
  c2_normalizer_failure_amended "no data" ["a.raw", "b.raw"] rfl

/-- Claim C1 counterexample.  With the extraction mapping sending `f.raw`
to a column map whose candidate sequence for `col` is the one-element
sequence holding the number `5`, the produced row's value for `col` is
the number `5` itself — not the first element coerced to a string, as the
claim demands (`vals[0]` is taken as-is in the list branch). -/
theorem c1_counterexample :
    sdrfToRow (Json.str "f.raw")
        (Json.obj [("f.raw", Json.obj [("col", Json.arr [Json.num 5])])]) ["col"] =
      .ok [("col", Json.num 5)] ∧
    Json.num 5 ≠ Json.str (pyStr (Json.num 5)) :=
  ⟨rfl, fun h => Json.noConfusion h⟩

/-- Claim C1 (corrected).  Row Filler postcondition, for extraction
mappings whose stored candidate values are sequences (as the data model
prescribes): the produced row contains exactly the requested columns, and
for each column, if the filename's candidate sequence exists and is
non-empty the row's value equals the first element of that sequence taken
as-is (string coercion is applied only to non-sequence stored values),
and otherwise the value is the literal string `Not Applicable`. -/
theorem c1_row_filler_amended (es : List (String × Json)) (raw : String)
    (cs : List (String × Json)) (cols : List String)
    (hmeta : (lookupKV es raw).getD (Json.obj []) = Json.obj cs)
    (hseq : ∀ p ∈ cs, ∃ xs, p.2 = Json.arr xs) :
    ∃ row, sdrfToRow (Json.str raw) (Json.obj es) cols = .ok row ∧
      (∀ col ∈ cols, lookupKV row col = some (rowExpected cs col)) ∧
      (∀ p ∈ row, p.1 ∈ cols) := by
  refine ⟨cols.foldl (fun r c => insertKV r c (rowExpected cs c)) [], ?_, ?_, ?_⟩
  · simp [sdrfToRow, pyGetD, hmeta, fillRow_allseq hseq]
  · intro col hcol
    rw [lookupKV_foldl_insert (rowExpected cs) cols [] col]
    simp [hcol]
  · intro p hp
    rcases mem_foldl_insert (rowExpected cs) cols [] p hp with h | h
    · exact h
    · simp at h

/-- Witness for C1: a mapping with a non-empty and an empty candidate
sequence, and a column absent from the map, produce the first element,
the fallback, and the fallback respectively. -/
theorem c1_row_filler_witness :
    ∃ row, sdrfToRow (Json.str "f.raw")
        (Json.obj [("f.raw", Json.obj [("col", Json.arr [Json.str "v"]), ("c2", Json.arr [])])])
        ["col", "c2", "c3"] = .ok row ∧
      (∀ col ∈ ["col", "c2", "c3"],
        lookupKV row col =
          some (rowExpected [("col", Json.arr [Json.str "v"]), ("c2", Json.arr [])] col)) ∧
      (∀ p ∈ row, p.1 ∈ ["col", "c2", "c3"]) := by
  apply c1_row_filler_amended
  · rfl
  · intro p hp
    simp only [List.mem_cons, List.not_mem_nil, or_false] at hp
    rcases hp with h | h
    · rw [h]; exact ⟨[Json.str "v"], rfl⟩
    · rw [h]; exact ⟨[], rfl⟩

theorem strListOf_map_str (files : List String) :
    strListOf (files.map Json.str) = .ok files := by
  induction files with
  | nil => rfl
  | cons f t ih => simp [strListOf, ih]

theorem userContent_strings (text : String) (files : List String) :
    userContent text (Json.arr (files.map Json.str)) =
      .ok ("MANUSCRIPT_TEXT:\n" ++ pySlice text MANUSCRIPT_MAX_CHARS
        ++ "\n\nRAW_FILES:\n" ++ String.intercalate "\n" files) := by
  simp [userContent, pyJoinLines, pyIter, strListOf_map_str]

/-- Claim C4 (confirmed).  Strategy selection policy: the configured
provider identifier selects the extractor only when the prompt
specification is a non-empty string; with an empty prompt specification
the Placeholder extractor is selected regardless of the configured
provider; and the Placeholder extractor returns an empty column mapping
for every requested filename. -/
theorem c4_strategy_selection :
    (∀ cfg : Config, get_extractor cfg "" = .placeholderE) ∧
    (∀ (cfg : Config) (ps : String), ps ≠ "" →
      get_extractor cfg ps =
        (if cfg.llm_provider = "openai" then .openaiE cfg
         else if cfg.llm_provider = "ollama" then .ollamaE cfg
         else .placeholderE)) ∧
    (∀ (text ps : String) (files : List String),
      PlaceholderExtractor.extract text (Json.arr (files.map Json.str)) ps =
        .ok (Json.obj (emptyEntriesFor files)) ∧
      ∀ f ∈ files, lookupKV (emptyEntriesFor files) f = some (Json.obj [])) := by
  refine ⟨fun cfg => rfl, ?_, ?_⟩
  · intro cfg ps hps
    simp [get_extractor, hps, Config.effective_provider]
  · intro text ps files
    refine ⟨pyDictFromKeys_strings files, fun f hf => ?_⟩
    simp [lookupKV_emptyEntriesFor, hf]

/-- Witness for C4: an `openai`-configured provider yields the
Placeholder with an empty prompt but the OpenAI extractor with a prompt,
and the Placeholder maps the requested filename to an empty column map. -/
theorem c4_strategy_selection_witness :
    get_extractor ⟨"openai", "k", "m", "om", "u"⟩ "" = .placeholderE ∧
    get_extractor ⟨"openai", "k", "m", "om", "u"⟩ "sys" =
      .openaiE ⟨"openai", "k", "m", "om", "u"⟩ ∧
    PlaceholderExtractor.extract "txt" (Json.arr [Json.str "a.raw"]) "sys" =
      .ok (Json.obj [("a.raw", Json.obj [])]) := by
  refine ⟨c4_strategy_selection.1 _, ?_, ?_⟩
  · have h := c4_strategy_selection.2.1 ⟨"openai", "k", "m", "om", "u"⟩ "sys" (by decide)
    simpa using h
  · exact (c4_strategy_selection.2.2 "txt" "sys" ["a.raw"]).1

/-- Claim C5 (confirmed).  Backend-unavailability degradation: the
Cloud-LLM extractor with no configured credential returns the empty
column mapping for every requested filename and issues no request at all
(the request log is empty); the Local-LLM extractor returns the same
empty-mapping result whenever its request fails — client exception
(network error or timeout) or non-success status (400-599, which
`raise_for_status` turns into an exception) — rather than propagating. -/
theorem c5_backend_degradation :
    (∀ (cfg : Config) (net : ChatRequest → Except PyErr String) (text ps : String)
        (files : List String), cfg.openai_api_key = "" →
      OpenAIExtractor.extract cfg net text (Json.arr (files.map Json.str)) ps =
        ([], .ok (Json.obj (emptyEntriesFor files)))) ∧
    (∀ (cfg : Config) (net : OllamaRequest → OllamaNet) (text ps : String)
        (files : List String),
      (∀ req, net req = .netFail ∨
        ∃ st body, net req = .response st body ∧ 400 ≤ st ∧ st < 600) →
      (OllamaExtractor.extract cfg net text (Json.arr (files.map Json.str)) ps).2 =
        .ok (Json.obj (emptyEntriesFor files))) := by
  constructor
  · intro cfg net text ps files hkey
    simp [OpenAIExtractor.extract, hkey, pyDictFromKeys_strings]
  · intro cfg net text ps files hnet
    simp only [OllamaExtractor.extract, userContent_strings]
    rcases hnet ⟨cfg.ollama_base_url ++ "/api/chat", cfg.ollama_model, ps,
        "MANUSCRIPT_TEXT:\n" ++ pySlice text MANUSCRIPT_MAX_CHARS
          ++ "\n\nRAW_FILES:\n" ++ String.intercalate "\n" files, false, 300⟩
      with h | ⟨st, body, h, h4, h6⟩
    · simp [h, pyDictFromKeys_strings]
    · simp [h, h4, h6, pyDictFromKeys_strings]

/-- Witness for C5: an empty credential yields the empty mapping with an
empty request log, and a failing local endpoint yields the empty mapping. -/
theorem c5_backend_degradation_witness :
    OpenAIExtractor.extract ⟨"openai", "", "m", "om", "u"⟩
        (fun _ => .error .apiError) "txt" (Json.arr [Json.str "a.raw"]) "sys" =
      ([], .ok (Json.obj [("a.raw", Json.obj [])])) ∧
    (OllamaExtractor.extract ⟨"ollama", "", "m", "om", "u"⟩
        (fun _ => .netFail) "txt" (Json.arr [Json.str "a.raw"]) "sys").2 =
      .ok (Json.obj [("a.raw", Json.obj [])]) := by
  constructor
  · exact c5_backend_degradation.1 _ _ "txt" "sys" ["a.raw"] rfl
  · exact c5_backend_degradation.2 _ _ "txt" "sys" ["a.raw"] (fun req => Or.inl rfl)

/-- Claim C7 counterexample.  A run whose template is present can still
surface an error to the caller: with a PubText file whose content is not
valid JSON, `json.load` raises `JSONDecodeError` out of `run` — so the
missing template is not the only condition that surfaces as a thrown
error. -/
theorem c7_counterexample :
    (SDRFPipeline.run ⟨"", "", "m", "om", "u"⟩
      ⟨some ⟨["PXD", "Raw Data File", "col1"],
             [⟨0, [("PXD", Json.str "P1"), ("Raw Data File", Json.str "a.raw"),
                   ("col1", Json.str "x")]⟩]⟩,
        none,
        fun s => if s = "P1" then some "no data" else none,
        fun _ => .error .apiError,
        fun _ => .netFail⟩).result = .error .jsonDecodeError ∧
    PyErr.jsonDecodeError ≠ PyErr.fileNotFoundError :=
  ⟨rfl, by decide⟩

/-- Claim C7 (corrected).  If the output template file is absent, the run
raises `FileNotFoundError` immediately: the trace records no extraction
call and no warning, and no output table is produced.  Since the trace is
the same for every environment with an absent template, the run consulted
neither the manuscript documents nor the backends.  (The claim's final
part — that this is the only condition surfacing as a thrown error — is
refuted by the counterexample.) -/
theorem c7_fatal_template_amended (cfg : Config) (env : Env)
    (h : env.sampleSubmission = none) :
    SDRFPipeline.run cfg env = ⟨[], [], .error .fileNotFoundError⟩ := by
  simp [SDRFPipeline.run, h]

/-- Witness for C7: a concrete environment with no template aborts with
`FileNotFoundError` and an empty trace. -/
theorem c7_fatal_template_witness :
    SDRFPipeline.run ⟨"", "", "m", "om", "u"⟩
      ⟨none, none, fun _ => none, fun _ => .error .apiError, fun _ => .netFail⟩ =
    ⟨[], [], .error .fileNotFoundError⟩ :=
  c7_fatal_template_amended _ _ rfl

/-- Claim C6 (confirmed).  Filename-override precedence: the `raw_files`
value passed to the group's single extraction call is the deduplicated
list drawn from the group's template rows when no manuscript document is
loaded; when the loaded document is an object, the value is its
`"Raw Data Files"` entry if that key is present — replacing the
template-derived list entirely — and the template-derived list otherwise.
Consequently a template row whose filename is absent from the extraction
result falls back to `Not Applicable` in every prediction column. -/
theorem c6_filename_override :
    (∀ (env : Env) (pxd : Json) (grows : List Row) (templ : List Json),
      rawFilesOf grows = .ok templ →
      env.pubtext (pyStr pxd) = none →
      groupCall env pxd grows = .ok ("", Json.arr (uniqueJson templ), true)) ∧
    (∀ (env : Env) (pxd : Json) (grows : List Row) (templ : List Json)
        (content text : String) (kvs : List (String × Json)),
      rawFilesOf grows = .ok templ →
      env.pubtext (pyStr pxd) = some content →
      jsonParse content = some (Json.obj kvs) →
      getManuscriptText (Json.obj kvs) = .ok text →
      groupCall env pxd grows =
        .ok (text, (lookupKV kvs "Raw Data Files").getD (Json.arr (uniqueJson templ)),
             false)) ∧
    (∀ (es : List (String × Json)) (s : String) (cols : List String),
      lookupKV es s = none →
      ∃ row, sdrfToRow (Json.str s) (Json.obj es) cols = .ok row ∧
        ∀ c ∈ cols, lookupKV row c = some notApplicable) := by
  refine ⟨?_, ?_, ?_⟩
  · intro env pxd grows templ htempl habs
    simp [groupCall, htempl, habs]
  · intro env pxd grows templ content text kvs htempl hcont hparse htext
    simp [groupCall, htempl, hcont, hparse, htext]
  · intro es s cols hmiss
    refine ⟨cols.foldl (fun r c => insertKV r c (rowExpected [] c)) [], ?_, ?_⟩
    · simp [sdrfToRow, pyGetD, hmiss, @fillRow_allseq [] (by simp)]
    · intro c hc
      rw [lookupKV_foldl_insert]
      simp [hc, rowExpected, lookupKV]

/-- Witness for C6, covering the spec's scenario: without a document the
template-derived list `a.raw` is passed; with a document declaring the
override `x.raw` the override is passed and the manuscript text comes
from the document; the row for `a.raw`, absent from the extraction
result, falls back to `Not Applicable`. -/
theorem c6_filename_override_witness :
    groupCall ⟨none, none, fun _ => none, fun _ => .error .apiError, fun _ => .netFail⟩
        (Json.str "PXD001") [⟨0, [("Raw Data File", Json.str "a.raw")]⟩] =
      .ok ("", Json.arr [Json.str "a.raw"], true) ∧
    groupCall ⟨none, none,
        (fun s => if s = "PXD001"
          then some "\x7b\"TITLE\": \"T\", \"Raw Data Files\": [\"x.raw\"]\x7d"
          else none),
        fun _ => .error .apiError, fun _ => .netFail⟩
        (Json.str "PXD001") [⟨0, [("Raw Data File", Json.str "a.raw")]⟩] =
      .ok ("T", Json.arr [Json.str "x.raw"], false) ∧
    (∃ row, sdrfToRow (Json.str "a.raw") (Json.obj [("x.raw", Json.obj [])])
        ["col1", "col2"] = .ok row ∧
      ∀ c ∈ ["col1", "col2"], lookupKV row c = some notApplicable) := by
  refine ⟨?_, ?_, ?_⟩
  · exact c6_filename_override.1 _ _ _ [Json.str "a.raw"] rfl rfl
  · exact c6_filename_override.2.1 _ _ _ [Json.str "a.raw"] "\x7b\"TITLE\": \"T\", \"Raw Data Files\": [\"x.raw\"]\x7d" "T"
      [("TITLE", Json.str "T"), ("Raw Data Files", Json.arr [Json.str "x.raw"])]
      rfl rfl rfl rfl
  · exact c6_filename_override.2.2 [("x.raw", Json.obj [])] "a.raw" ["col1", "col2"] rfl

theorem forall2_trans {α : Type} {R S T : α → α → Prop}
    (h : ∀ a b c, R a b → S b c → T a c) :
    ∀ {l1 l2 l3 : List α}, List.Forall₂ R l1 l2 → List.Forall₂ S l2 l3 →
      List.Forall₂ T l1 l3 := by
  intro l1 l2 l3 h12
  induction h12 generalizing l3 with
  | nil => intro h23; cases h23; exact List.Forall₂.nil
  | cons hr hrest ih =>
    intro h23
    cases h23 with
    | cons hs hsrest => exact List.Forall₂.cons (h _ _ _ hr hs) (ih hsrest)

theorem forall2_map_self {α : Type} {R : α → α → Prop} {g : α → α} :
    ∀ {l : List α}, (∀ a ∈ l, R a (g a)) → List.Forall₂ R l (l.map g) := by
  intro l
  induction l with
  | nil => intro _; exact List.Forall₂.nil
  | cons a t ih =>
    intro h
    exact List.Forall₂.cons (h a (List.mem_cons_self a t))
      (ih (fun b hb => h b (List.mem_cons_of_mem _ hb)))

theorem applyCols_eq :
    ∀ (cols : List String) (rows : List Row) (idx : Nat) (vals : List (String × Json)),
    (∀ c ∈ cols, (lookupKV vals c).isSome) →
    applyCols idx vals cols rows = .ok (rows.map (fun r =>
      if r.idx = idx then
        ⟨r.idx, cols.foldl (fun cells c =>
          insertKV cells c ((lookupKV vals c).getD notApplicable)) r.cells⟩
      else r)) := by
  intro cols
  induction cols with
  | nil =>
    intro rows idx vals _
    have hfun : (fun r : Row =>
        if r.idx = idx then (⟨r.idx, r.cells⟩ : Row) else r) = fun r => r := by
      funext r
      obtain ⟨i, cs⟩ := r
      simp
    simp [applyCols, hfun]
  | cons c rest ih =>
    intro rows idx vals h
    have hc := h c (List.mem_cons_self c rest)
    obtain ⟨v, hv⟩ := Option.isSome_iff_exists.mp hc
    have hrest : ∀ c2 ∈ rest, (lookupKV vals c2).isSome :=
      fun c2 h2 => h c2 (List.mem_cons_of_mem _ h2)
    simp only [applyCols, hv]
    rw [ih _ idx vals hrest]
    congr 1
    rw [updateCell, List.map_map]
    apply List.map_congr_left
    intro r _
    by_cases hr : r.idx = idx
    · simp [Function.comp, hr, hv]
    · simp [Function.comp, hr]

theorem fillRow_isSome :
    ∀ (cols : List String) (meta : Json) (row out : List (String × Json)),
    fillRow meta cols row = .ok out →
    (∀ k, (lookupKV row k).isSome → (lookupKV out k).isSome) ∧
    (∀ c ∈ cols, (lookupKV out c).isSome) := by
  intro cols
  induction cols with
  | nil =>
    intro meta row out h
    simp only [fillRow, Except.ok.injEq] at h
    subst h
    exact ⟨fun k hk => hk, by simp⟩
  | cons col rest ih =>
    intro meta row out h
    have key : ∃ w, fillRow meta rest (insertKV row col w) = .ok out := by
      cases hopt : pyGetOpt meta col with
      | error e =>
        simp only [fillRow, hopt] at h
        exact Except.noConfusion h
      | ok vals =>
        cases vals with
        | none =>
          simp only [fillRow, hopt] at h
          exact ⟨notApplicable, h⟩
        | some v =>
          by_cases ht : pyTruthy v
          · cases hlen : pyLen v with
            | error e =>
              simp only [fillRow, hopt, ht, hlen, if_true] at h
              exact Except.noConfusion h
            | ok n =>
              by_cases hn : 0 < n
              · simp only [fillRow, hopt, ht, hlen, if_true, hn] at h
                exact ⟨_, h⟩
              · simp only [fillRow, hopt, ht, hlen, if_true, hn, if_false] at h
                exact ⟨notApplicable, h⟩
          · simp only [fillRow, hopt, ht] at h
            exact ⟨notApplicable, h⟩
    obtain ⟨w, hw⟩ := key
    obtain ⟨mono, covers⟩ := ih meta _ out hw
    constructor
    · intro k hk
      apply mono
      rw [lookupKV_insertKV]
      by_cases hck : col = k <;> simp [hck, hk]
    · intro c hc
      rcases List.mem_cons.mp hc with rfl | hcr
      · apply mono
        rw [lookupKV_insertKV]
        simp
      · exact covers c hcr

theorem sdrfToRow_covers {rf sdrf : Json} {cols : List String}
    {vals : List (String × Json)} (h : sdrfToRow rf sdrf cols = .ok vals) :
    ∀ c ∈ cols, (lookupKV vals c).isSome := by
  cases hget : pyGetD sdrf rf (Json.obj []) with
  | error e =>
    simp only [sdrfToRow, hget] at h
    exact Except.noConfusion h
  | ok meta =>
    simp only [sdrfToRow, hget] at h
    exact (fillRow_isSome cols meta [] vals h).2

theorem forall2_mem_right {α : Type} {R : α → α → Prop} :
    ∀ {l1 l2 : List α}, List.Forall₂ R l1 l2 → ∀ b ∈ l2, ∃ a ∈ l1, R a b := by
  intro l1 l2 h
  induction h with
  | nil => intro b hb; simp at hb
  | cons hr hrest ih =>
    intro b hb
    rcases List.mem_cons.mp hb with rfl | hb2
    · exact ⟨_, List.mem_cons_self _ _, hr⟩
    · obtain ⟨a, ha, hR⟩ := ih b hb2
      exact ⟨a, List.mem_cons_of_mem _ ha, hR⟩

theorem forall2_map_idx {R : Row → Row → Prop}
    (hR : ∀ a b, R a b → b.idx = a.idx) :
    ∀ {l1 l2 : List Row}, List.Forall₂ R l1 l2 → l2.map Row.idx = l1.map Row.idx := by
  intro l1 l2 h
  induction h with
  | nil => rfl
  | cons hr hrest ih => simp [hR _ _ hr, ih]

theorem applyCols_forall2 {cols : List String} {idx : Nat}
    {vals : List (String × Json)} {rows rows2 : List Row}
    (hcov : ∀ c ∈ cols, (lookupKV vals c).isSome)
    (h : applyCols idx vals cols rows = .ok rows2) :
    List.Forall₂ (fun o f => f.idx = o.idx ∧
      (∀ k, k ∉ cols → lookupKV f.cells k = lookupKV o.cells k) ∧
      (∀ k, (lookupKV o.cells k).isSome → (lookupKV f.cells k).isSome) ∧
      (o.idx = idx → ∀ c ∈ cols, (lookupKV f.cells c).isSome)) rows rows2 := by
  rw [applyCols_eq cols rows idx vals hcov] at h
  cases h
  apply forall2_map_self
  intro r _
  by_cases hr : r.idx = idx
  · rw [if_pos hr]
    refine ⟨rfl, ?_, ?_, ?_⟩
    · intro k hk
      rw [lookupKV_foldl_insert]
      simp [hk]
    · intro k hk
      rw [lookupKV_foldl_insert]
      by_cases hkc : k ∈ cols <;> simp [hkc, hk]
    · intro _ c hc
      rw [lookupKV_foldl_insert]
      simp [hc]
  · rw [if_neg hr]
    exact ⟨rfl, fun k _ => rfl, fun k hk => hk, fun habs => absurd habs hr⟩

theorem fillGroupRows_forall2 {sdrf : Json} {pred : List String} :
    ∀ {grows rows rows2 : List Row},
    fillGroupRows sdrf pred grows rows = .ok rows2 →
    List.Forall₂ (fun o f => f.idx = o.idx ∧
      (∀ k, k ∉ pred → lookupKV f.cells k = lookupKV o.cells k) ∧
      (∀ k, (lookupKV o.cells k).isSome → (lookupKV f.cells k).isSome) ∧
      ((∃ g ∈ grows, Row.idx g = o.idx) → ∀ c ∈ pred, (lookupKV f.cells c).isSome))
      rows rows2 := by
  intro grows
  induction grows with
  | nil =>
    intro rows rows2 h
    simp only [fillGroupRows, Except.ok.injEq] at h
    subst h
    refine List.forall₂_same.mpr (fun o ho => ⟨rfl, fun k _ => rfl, fun k hk => hk, ?_⟩)
    rintro ⟨g, hg, _⟩
    simp at hg
  | cons gr grs ih =>
    intro rows rows2 h
    cases hrf : lookupKV gr.cells "Raw Data File" with
    | none =>
      simp only [fillGroupRows, hrf] at h
      exact Except.noConfusion h
    | some rf =>
      cases hrow : sdrfToRow rf sdrf pred with
      | error e =>
        simp only [fillGroupRows, hrf, hrow] at h
        exact Except.noConfusion h
      | ok vals =>
        have hcov := sdrfToRow_covers hrow
        cases happ : applyCols gr.idx vals pred rows with
        | error e =>
          simp only [fillGroupRows, hrf, hrow, happ] at h
          exact Except.noConfusion h
        | ok rowsMid =>
          simp only [fillGroupRows, hrf, hrow, happ] at h
          have h1 := applyCols_forall2 hcov happ
          have h2 := ih h
          refine forall2_trans ?_ h1 h2
          rintro o m f ⟨hidx1, hun1, hmono1, hfill1⟩ ⟨hidx2, hun2, hmono2, hfill2⟩
          refine ⟨hidx2.trans hidx1, ?_, fun k hk => hmono2 k (hmono1 k hk), ?_⟩
          · intro k hk
            rw [hun2 k hk, hun1 k hk]
          · rintro ⟨g, hg, hgidx⟩ c hc
            rcases List.mem_cons.mp hg with rfl | hgs
            · exact hmono2 c (hfill1 hgidx.symm c hc)
            · exact hfill2 ⟨g, hgs, by rw [hgidx, ← hidx1]⟩ c hc

theorem loopGroups_forall2 {ex : Extractor} {env : Env} {ps : String}
    {pred : List String} :
    ∀ {groups : List (Json × List Row)} {rows rows2 : List Row},
    (loopGroups ex env ps pred groups rows).2.2 = .ok rows2 →
    List.Forall₂ (fun o f => f.idx = o.idx ∧
      (∀ k, k ∉ pred → lookupKV f.cells k = lookupKV o.cells k) ∧
      (∀ k, (lookupKV o.cells k).isSome → (lookupKV f.cells k).isSome) ∧
      ((∃ p ∈ groups, ∃ g ∈ p.2, Row.idx g = o.idx) →
        ∀ c ∈ pred, (lookupKV f.cells c).isSome)) rows rows2 := by
  intro groups
  induction groups with
  | nil =>
    intro rows rows2 h
    simp only [loopGroups, Except.ok.injEq] at h
    subst h
    refine List.forall₂_same.mpr (fun o ho => ⟨rfl, fun k _ => rfl, fun k hk => hk, ?_⟩)
    rintro ⟨p, hp, _⟩
    simp at hp
  | cons gp rest ih =>
    obtain ⟨pxd, grows⟩ := gp
    intro rows rows2 h
    cases hgc : groupCall env pxd grows with
    | error e =>
      simp only [loopGroups, hgc] at h
      exact Except.noConfusion h
    | ok tri =>
      obtain ⟨text, raws, warned⟩ := tri
      cases hex : runExtractor ex env text raws ps with
      | error e =>
        simp only [loopGroups, hgc, hex] at h
        exact Except.noConfusion h
      | ok sdrf =>
        cases hfill : fillGroupRows sdrf pred grows rows with
        | error e =>
          simp only [loopGroups, hgc, hex, hfill] at h
          exact Except.noConfusion h
        | ok rowsMid =>
          simp only [loopGroups, hgc, hex, hfill] at h
          have h1 := fillGroupRows_forall2 hfill
          have h2 := ih h
          refine forall2_trans ?_ h1 h2
          rintro o m f ⟨hidx1, hun1, hmono1, hfill1⟩ ⟨hidx2, hun2, hmono2, hfill2⟩
          refine ⟨hidx2.trans hidx1, ?_, fun k hk => hmono2 k (hmono1 k hk), ?_⟩
          · intro k hk
            rw [hun2 k hk, hun1 k hk]
          · rintro ⟨p, hp, g, hg, hgidx⟩ c hc
            rcases List.mem_cons.mp hp with rfl | hps
            · exact hmono2 c (hfill1 ⟨g, hg, hgidx⟩ c hc)
            · exact hfill2 ⟨p, hps, g, hg, by rw [hgidx, ← hidx1]⟩ c hc

theorem mem_uniqueJson_aux :
    ∀ (l acc : List Json) (x : Json), (x ∈ acc ∨ x ∈ l) →
    x ∈ l.foldl (fun acc2 y =>
      if acc2.any (fun z => Json.beq z y) then acc2 else acc2 ++ [y]) acc := by
  intro l
  induction l with
  | nil =>
    intro acc x h
    rcases h with h | h
    · exact h
    · simp at h
  | cons y t ih =>
    intro acc x h
    simp only [List.foldl_cons]
    by_cases hany : (acc.any (fun z => Json.beq z y)) = true
    · simp only [hany, if_true]
      rcases h with h | h
      · exact ih _ x (Or.inl h)
      · rcases List.mem_cons.mp h with rfl | ht
        · obtain ⟨z, hz, hbeq⟩ := List.any_eq_true.mp hany
          have := Json.eq_of_beq hbeq
          exact ih _ x (Or.inl (this ▸ hz))
        · exact ih _ x (Or.inr ht)
    · simp only [hany, if_false]
      rcases h with h | h
      · exact ih _ x (Or.inl (List.mem_append_left _ h))
      · rcases List.mem_cons.mp h with rfl | ht
        · exact ih _ x (Or.inl (List.mem_append_right _ (List.mem_singleton.mpr rfl)))
        · exact ih _ x (Or.inr ht)

theorem mem_uniqueJson {l : List Json} {x : Json} (h : x ∈ l) : x ∈ uniqueJson l :=
  mem_uniqueJson_aux l [] x (Or.inr h)

theorem uniqueJson_sub_aux :
    ∀ (l acc : List Json) (x : Json),
    x ∈ l.foldl (fun acc2 y =>
      if acc2.any (fun z => Json.beq z y) then acc2 else acc2 ++ [y]) acc →
    x ∈ acc ∨ x ∈ l := by
  intro l
  induction l with
  | nil => intro acc x h; exact Or.inl h
  | cons y t ih =>
    intro acc x h
    simp only [List.foldl_cons] at h
    by_cases hany : (acc.any (fun z => Json.beq z y)) = true
    · simp only [hany, if_true] at h
      rcases ih _ x h with h2 | h2
      · exact Or.inl h2
      · exact Or.inr (List.mem_cons_of_mem _ h2)
    · simp only [hany, if_false] at h
      rcases ih _ x h with h2 | h2
      · rcases List.mem_append.mp h2 with h3 | h3
        · exact Or.inl h3
        · exact Or.inr (by simp [List.mem_singleton.mp h3])
      · exact Or.inr (List.mem_cons_of_mem _ h2)

theorem uniqueJson_sub {l : List Json} {x : Json} (h : x ∈ uniqueJson l) : x ∈ l := by
  rcases uniqueJson_sub_aux l [] x h with h2 | h2
  · simp at h2
  · exact h2

theorem groupRows_covers {rows : List Row} {r : Row} (h : r ∈ rows) :
    ∃ p ∈ groupRows rows, r ∈ p.2 := by
  refine ⟨(pxdOf r, rows.filter (fun q => Json.beq (pxdOf q) (pxdOf r))), ?_, ?_⟩
  · exact List.mem_map.mpr ⟨pxdOf r, mem_uniqueJson (List.mem_map.mpr ⟨r, h, rfl⟩), rfl⟩
  · exact List.mem_filter.mpr ⟨h, Json.beq_refl _⟩

theorem groupRows_sub {rows : List Row} {p : Json × List Row}
    (hp : p ∈ groupRows rows) : ∀ g ∈ p.2, g ∈ rows := by
  obtain ⟨k, _, rfl⟩ := List.mem_map.mp hp
  intro g hg
  exact (List.mem_filter.mp hg).1

/-- Claim C3 (confirmed).  Output table frame: whenever a run writes an
output table, it has the same column list as the input template, identical
row count and row order (the index-label sequence is unchanged), every
prediction column — every column outside the four excluded
identifier/metadata columns — is present (filled) in every produced row,
and each produced row agrees with its template row on every
non-prediction column. -/
theorem c3_output_frame (cfg : Config) (env : Env) (sub out : Table)
    (hsub : env.sampleSubmission = some sub)
    (hok : (SDRFPipeline.run cfg env).result = .ok out) :
    out.columns = sub.columns ∧
    out.rows.map Row.idx = sub.rows.map Row.idx ∧
    (∀ r ∈ out.rows, ∀ c ∈ predColumnsOf sub.columns, (lookupKV r.cells c).isSome) ∧
    List.Forall₂ (fun o f => f.idx = o.idx ∧
      ∀ c, c ∉ predColumnsOf sub.columns →
        lookupKV f.cells c = lookupKV o.cells c) sub.rows out.rows := by
  by_cases hpxd : sub.columns.contains "PXD" = true
  · simp only [SDRFPipeline.run, hsub, hpxd, if_true] at hok
    cases hres : (loopGroups (get_extractor cfg (loadBaselinePrompt env)) env
        (loadBaselinePrompt env) (predColumnsOf sub.columns)
        (groupRows sub.rows) sub.rows).2.2 with
    | error e =>
      rw [hres] at hok
      simp only [Except.map] at hok
      exact Except.noConfusion hok
    | ok rows2 =>
      rw [hres] at hok
      simp only [Except.map, Except.ok.injEq] at hok
      subst hok
      have hF := loopGroups_forall2 hres
      refine ⟨rfl, ?_, ?_, ?_⟩
      · exact forall2_map_idx (fun a b h => h.1) hF
      · intro r hr c hc
        obtain ⟨o, ho, hrel⟩ := forall2_mem_right hF r hr
        obtain ⟨p, hp, hop⟩ := groupRows_covers ho
        exact hrel.2.2.2 ⟨p, hp, o, hop, rfl⟩ c hc
      · exact hF.imp (fun a b h => ⟨h.1, h.2.1⟩)
  · simp only [SDRFPipeline.run, hsub, hpxd, if_false] at hok
    exact Except.noConfusion hok

/-- Witness for C3: a one-row template run to completion under the
Placeholder keeps the column list, the row order, fills the prediction
column, and leaves the identifier columns untouched. -/
theorem c3_output_frame_witness :
    (⟨["PXD", "Raw Data File", "c1"],
      [⟨0, [("PXD", Json.str "P1"), ("Raw Data File", Json.str "a.raw"),
            ("c1", Json.str "Not Applicable")]⟩]⟩ : Table).columns =
      (⟨["PXD", "Raw Data File", "c1"],
        [⟨0, [("PXD", Json.str "P1"), ("Raw Data File", Json.str "a.raw"),
              ("c1", Json.str "x")]⟩]⟩ : Table).columns ∧
    (⟨["PXD", "Raw Data File", "c1"],
      [⟨0, [("PXD", Json.str "P1"), ("Raw Data File", Json.str "a.raw"),
            ("c1", Json.str "Not Applicable")]⟩]⟩ : Table).rows.map Row.idx =
      (⟨["PXD", "Raw Data File", "c1"],
        [⟨0, [("PXD", Json.str "P1"), ("Raw Data File", Json.str "a.raw"),
              ("c1", Json.str "x")]⟩]⟩ : Table).rows.map Row.idx ∧
    (∀ r ∈ (⟨["PXD", "Raw Data File", "c1"],
        [⟨0, [("PXD", Json.str "P1"), ("Raw Data File", Json.str "a.raw"),
              ("c1", Json.str "Not Applicable")]⟩]⟩ : Table).rows,
      ∀ c ∈ predColumnsOf ["PXD", "Raw Data File", "c1"],
        (lookupKV r.cells c).isSome) ∧
    List.Forall₂ (fun o f => Row.idx f = Row.idx o ∧
      ∀ c, c ∉ predColumnsOf ["PXD", "Raw Data File", "c1"] →
        lookupKV (Row.cells f) c = lookupKV (Row.cells o) c)
      ([⟨0, [("PXD", Json.str "P1"), ("Raw Data File", Json.str "a.raw"),
             ("c1", Json.str "x")]⟩] : List Row)
      ([⟨0, [("PXD", Json.str "P1"), ("Raw Data File", Json.str "a.raw"),
             ("c1", Json.str "Not Applicable")]⟩] : List Row) :=
  c3_output_frame ⟨"", "", "m", "om", "u"⟩
    ⟨some ⟨["PXD", "Raw Data File", "c1"],
           [⟨0, [("PXD", Json.str "P1"), ("Raw Data File", Json.str "a.raw"),
                 ("c1", Json.str "x")]⟩]⟩,
      none, fun _ => none, fun _ => .error .apiError, fun _ => .netFail⟩
    ⟨["PXD", "Raw Data File", "c1"],
     [⟨0, [("PXD", Json.str "P1"), ("Raw Data File", Json.str "a.raw"),
           ("c1", Json.str "x")]⟩]⟩
    ⟨["PXD", "Raw Data File", "c1"],
     [⟨0, [("PXD", Json.str "P1"), ("Raw Data File", Json.str "a.raw"),
           ("c1", Json.str "Not Applicable")]⟩]⟩
    rfl rfl

theorem rawFilesOf_ok :
    ∀ {grows : List Row},
    (∀ g ∈ grows, ∃ s, lookupKV g.cells "Raw Data File" = some (Json.str s)) →
    ∃ templ, rawFilesOf grows = .ok templ ∧ ∀ x ∈ templ, ∃ s, x = Json.str s := by
  intro grows
  induction grows with
  | nil => intro _; exact ⟨[], rfl, by simp⟩
  | cons g t ih =>
    intro h
    obtain ⟨s, hs⟩ := h g (List.mem_cons_self g t)
    obtain ⟨templ, htempl, hall⟩ := ih (fun g2 h2 => h g2 (List.mem_cons_of_mem _ h2))
    refine ⟨Json.str s :: templ, ?_, ?_⟩
    · simp [rawFilesOf, hs, htempl]
    · intro x hx
      rcases List.mem_cons.mp hx with rfl | hx2
      · exact ⟨s, rfl⟩
      · exact hall x hx2

theorem strs_of_all_str :
    ∀ {l : List Json}, (∀ x ∈ l, ∃ s, x = Json.str s) →
    ∃ fs : List String, l = fs.map Json.str := by
  intro l
  induction l with
  | nil => intro _; exact ⟨[], rfl⟩
  | cons x t ih =>
    intro h
    obtain ⟨s, hs⟩ := h x (List.mem_cons_self x t)
    obtain ⟨fs, hfs⟩ := ih (fun y hy => h y (List.mem_cons_of_mem _ hy))
    exact ⟨s :: fs, by simp [hs, hfs]⟩

theorem groupCall_ok {env : Env} {pxd : Json} {grows : List Row}
    (hdoc : DocOK env pxd)
    (hstr : ∀ g ∈ grows, ∃ s, lookupKV g.cells "Raw Data File" = some (Json.str s)) :
    ∃ text files warned,
      groupCall env pxd grows = .ok (text, Json.arr (List.map Json.str files), warned) ∧
      (warned = true ↔ env.pubtext (pyStr pxd) = none) ∧
      (warned = true → text = "") := by
  obtain ⟨templ, htempl, hall⟩ := rawFilesOf_ok hstr
  have hallu : ∀ x ∈ uniqueJson templ, ∃ s, x = Json.str s :=
    fun x hx => hall x (uniqueJson_sub hx)
  obtain ⟨tfiles, htf⟩ := strs_of_all_str hallu
  cases hpt : env.pubtext (pyStr pxd) with
  | none =>
    refine ⟨"", tfiles, true, ?_, by simp [hpt], fun _ => rfl⟩
    simp [groupCall, htempl, hpt, htf]
  | some content =>
    simp only [DocOK, hpt] at hdoc
    obtain ⟨kvs, hparse, ⟨t, htext⟩, hover⟩ := hdoc
    cases hov : lookupKV kvs "Raw Data Files" with
    | none =>
      refine ⟨t, tfiles, false, ?_, by simp [hpt], by simp⟩
      simp [groupCall, htempl, hpt, hparse, htext, hov, htf]
    | some v =>
      obtain ⟨files, hv⟩ := hover v hov
      refine ⟨t, files, false, ?_, by simp [hpt], by simp⟩
      simp [groupCall, htempl, hpt, hparse, htext, hov, hv]

theorem sdrfToRow_allNA {es : List (String × Json)} {s : String}
    (hmeta : (lookupKV es s).getD (Json.obj []) = Json.obj []) (cols : List String) :
    ∃ vals, sdrfToRow (Json.str s) (Json.obj es) cols = .ok vals ∧
      ∀ c ∈ cols, lookupKV vals c = some notApplicable := by
  refine ⟨cols.foldl (fun r c => insertKV r c (rowExpected [] c)) [], ?_, ?_⟩
  · simp [sdrfToRow, pyGetD, hmeta, @fillRow_allseq [] (by simp)]
  · intro c hc
    rw [lookupKV_foldl_insert]
    simp [hc, rowExpected, lookupKV]

theorem applyCols_forall2_NA {cols : List String} {idx : Nat}
    {vals : List (String × Json)} {rows rows2 : List Row}
    (hNA : ∀ c ∈ cols, lookupKV vals c = some notApplicable)
    (h : applyCols idx vals cols rows = .ok rows2) :
    List.Forall₂ (fun o f => f.idx = o.idx ∧
      (∀ k, k ∉ cols → lookupKV f.cells k = lookupKV o.cells k) ∧
      (∀ c ∈ cols, lookupKV f.cells c = some notApplicable ∨
        lookupKV f.cells c = lookupKV o.cells c) ∧
      (o.idx = idx → ∀ c ∈ cols, lookupKV f.cells c = some notApplicable)) rows rows2 := by
  have hcov : ∀ c ∈ cols, (lookupKV vals c).isSome := fun c hc => by simp [hNA c hc]
  rw [applyCols_eq cols rows idx vals hcov] at h
  cases h
  apply forall2_map_self
  intro r _
  by_cases hr : r.idx = idx
  · rw [if_pos hr]
    refine ⟨rfl, ?_, ?_, ?_⟩
    · intro k hk; rw [lookupKV_foldl_insert]; simp [hk]
    · intro c hc
      left
      rw [lookupKV_foldl_insert]
      simp [hc, hNA c hc]
    · intro _ c hc
      rw [lookupKV_foldl_insert]
      simp [hc, hNA c hc]
  · rw [if_neg hr]
    exact ⟨rfl, fun k _ => rfl, fun c _ => Or.inr rfl, fun habs => absurd habs hr⟩

theorem fillGroupRows_forall2_NA {es : List (String × Json)} {pred : List String}
    (hes : ∀ p ∈ es, p.2 = Json.obj []) :
    ∀ {grows rows : List Row},
    (∀ g ∈ grows, ∃ s, lookupKV g.cells "Raw Data File" = some (Json.str s)) →
    ∃ rows2, fillGroupRows (Json.obj es) pred grows rows = .ok rows2 ∧
      List.Forall₂ (fun o f => f.idx = o.idx ∧
        (∀ k, k ∉ pred → lookupKV f.cells k = lookupKV o.cells k) ∧
        (∀ c ∈ pred, lookupKV f.cells c = some notApplicable ∨
          lookupKV f.cells c = lookupKV o.cells c) ∧
        ((∃ g ∈ grows, Row.idx g = o.idx) →
          ∀ c ∈ pred, lookupKV f.cells c = some notApplicable)) rows rows2 := by
  intro grows
  induction grows with
  | nil =>
    intro rows _
    refine ⟨rows, rfl, List.forall₂_same.mpr (fun o ho => ⟨rfl, fun k _ => rfl,
      fun c _ => Or.inr rfl, ?_⟩)⟩
    rintro ⟨g, hg, _⟩
    simp at hg
  | cons gr grs ih =>
    intro rows hstr
    obtain ⟨s, hs⟩ := hstr gr (List.mem_cons_self gr grs)
    have hmeta : (lookupKV es s).getD (Json.obj []) = Json.obj [] := by
      cases hl : lookupKV es s with
      | none => rfl
      | some v => simpa using hes (s, v) (lookupKV_mem hl)
    obtain ⟨vals, hvals, hNA⟩ := sdrfToRow_allNA hmeta pred
    have hcov : ∀ c ∈ pred, (lookupKV vals c).isSome := fun c hc => by simp [hNA c hc]
    obtain ⟨rowsMid, happEq⟩ : ∃ rm, applyCols gr.idx vals pred rows = .ok rm :=
      ⟨_, applyCols_eq pred rows gr.idx vals hcov⟩
    have hF1 := applyCols_forall2_NA hNA happEq
    obtain ⟨rows3, hrec, hF2⟩ :=
      @ih rowsMid (fun g2 h2 => hstr g2 (List.mem_cons_of_mem _ h2))
    refine ⟨rows3, ?_, ?_⟩
    · simp [fillGroupRows, hs, hvals, happEq, hrec]
    · refine forall2_trans ?_ hF1 hF2
      rintro o m f ⟨hidx1, hun1, hval1, hfill1⟩ ⟨hidx2, hun2, hval2, hfill2⟩
      refine ⟨hidx2.trans hidx1, ?_, ?_, ?_⟩
      · intro k hk; rw [hun2 k hk, hun1 k hk]
      · intro c hc
        rcases hval2 c hc with h2 | h2
        · exact Or.inl h2
        · rcases hval1 c hc with h1 | h1
          · exact Or.inl (h2.trans h1)
          · exact Or.inr (h2.trans h1)
      · rintro ⟨g, hg, hgidx⟩ c hc
        rcases List.mem_cons.mp hg with rfl | hgs
        · rcases hval2 c hc with h2 | h2
          · exact h2
          · exact h2.trans (hfill1 hgidx.symm c hc)
        · exact hfill2 ⟨g, hgs, by rw [hgidx, ← hidx1]⟩ c hc

theorem loopGroups_placeholder_NA {env : Env} {ps : String} {pred : List String} :
    ∀ {groups : List (Json × List Row)} {rows : List Row},
    (∀ p ∈ groups, DocOK env p.1) →
    (∀ p ∈ groups, ∀ g ∈ p.2, ∃ s, lookupKV g.cells "Raw Data File" = some (Json.str s)) →
    ∃ calls warns rows2,
      loopGroups .placeholderE env ps pred groups rows = (calls, warns, .ok rows2) ∧
      List.Forall₂ (fun o f => f.idx = o.idx ∧
        (∀ k, k ∉ pred → lookupKV f.cells k = lookupKV o.cells k) ∧
        (∀ c ∈ pred, lookupKV f.cells c = some notApplicable ∨
          lookupKV f.cells c = lookupKV o.cells c) ∧
        ((∃ p ∈ groups, ∃ g ∈ p.2, Row.idx g = o.idx) →
          ∀ c ∈ pred, lookupKV f.cells c = some notApplicable)) rows rows2 ∧
      (∀ p ∈ groups, env.pubtext (pyStr p.1) = none →
        pyStr p.1 ∈ warns ∧ ∃ raws, (⟨"", raws, ps⟩ : ExtractCall) ∈ calls) ∧
      (∀ w ∈ warns, ∃ p ∈ groups, env.pubtext (pyStr p.1) = none ∧ w = pyStr p.1) := by
  intro groups
  induction groups with
  | nil =>
    intro rows _ _
    refine ⟨[], [], rows, rfl, List.forall₂_same.mpr (fun o ho => ⟨rfl, fun k _ => rfl,
      fun c _ => Or.inr rfl, ?_⟩), by simp, by simp⟩
    rintro ⟨p, hp, _⟩
    simp at hp
  | cons gp rest ih =>
    obtain ⟨pxd, grows⟩ := gp
    intro rows hdocs hstrs
    have hdoc := hdocs (pxd, grows) (List.mem_cons_self _ _)
    have hstr : ∀ g ∈ grows, ∃ s, lookupKV g.cells "Raw Data File" = some (Json.str s) :=
      fun g hg => hstrs (pxd, grows) (List.mem_cons_self _ _) g hg
    obtain ⟨text, files, warned, hgc, hwiff, hwtext⟩ := groupCall_ok hdoc hstr
    have hex : runExtractor .placeholderE env text (Json.arr (files.map Json.str)) ps =
        .ok (Json.obj (emptyEntriesFor files)) := by
      simp [runExtractor, PlaceholderExtractor.extract, pyDictFromKeys_strings]
    obtain ⟨rowsMid, hfill, hF1⟩ :=
      @fillGroupRows_forall2_NA (emptyEntriesFor files) pred
        (emptyEntriesFor_values files) grows rows hstr
    obtain ⟨calls, warns, rows3, hloop, hF2, habs, hwar⟩ :=
      @ih rowsMid (fun p hp => hdocs p (List.mem_cons_of_mem _ hp))
        (fun p hp => hstrs p (List.mem_cons_of_mem _ hp))
    refine ⟨⟨text, Json.arr (files.map Json.str), ps⟩ :: calls,
      (if warned then [pyStr pxd] else []) ++ warns, rows3, ?_, ?_, ?_, ?_⟩
    · simp [loopGroups, hgc, hex, hfill, hloop]
    · refine forall2_trans ?_ hF1 hF2
      rintro o m f ⟨hidx1, hun1, hval1, hfill1⟩ ⟨hidx2, hun2, hval2, hfill2⟩
      refine ⟨hidx2.trans hidx1, ?_, ?_, ?_⟩
      · intro k hk; rw [hun2 k hk, hun1 k hk]
      · intro c hc
        rcases hval2 c hc with h2 | h2
        · exact Or.inl h2
        · rcases hval1 c hc with h1 | h1
          · exact Or.inl (h2.trans h1)
          · exact Or.inr (h2.trans h1)
      · rintro ⟨p, hp, g, hg, hgidx⟩ c hc
        rcases List.mem_cons.mp hp with rfl | hps
        · rcases hval2 c hc with h2 | h2
          · exact h2
          · exact h2.trans (hfill1 ⟨g, hg, hgidx⟩ c hc)
        · exact hfill2 ⟨p, hps, g, hg, by rw [hgidx, ← hidx1]⟩ c hc
    · intro p hp hnone
      rcases List.mem_cons.mp hp with rfl | hps
      · have hw : warned = true := hwiff.mpr hnone
        constructor
        · subst hw
          exact List.mem_append_left _ (List.mem_singleton.mpr rfl)
        · refine ⟨Json.arr (files.map Json.str), ?_⟩
          have := hwtext (by rw [hw])
          subst this
          exact List.mem_cons_self _ _
      · obtain ⟨hwmem, raws, hcmem⟩ := habs p hps hnone
        exact ⟨List.mem_append_right _ hwmem, raws, List.mem_cons_of_mem _ hcmem⟩
    · intro w hw
      rcases List.mem_append.mp hw with hw1 | hw2
      · by_cases hwd : warned = true
        · rw [if_pos hwd] at hw1
          refine ⟨(pxd, grows), List.mem_cons_self _ _, hwiff.mp hwd,
            List.mem_singleton.mp hw1⟩
        · rw [if_neg hwd] at hw1
          simp at hw1
      · obtain ⟨p, hps, hn, hwp⟩ := hwar w hw2
        exact ⟨p, List.mem_cons_of_mem _ hps, hn, hwp⟩

/-- Claim C8 (confirmed).  Per-group recoverable degradation, under the
Placeholder extractor (no prompt file) and loadable documents: the run is
not aborted (it writes a table with the template's index sequence); for
every group whose manuscript document is absent a warning naming the
group is printed and that group's extraction call is made with empty
manuscript text; every prediction column of every row is filled with
`Not Applicable`; and warnings arise only from groups with an absent
document, so all other groups are unaffected. -/
theorem c8_per_group_degradation (cfg : Config) (env : Env) (sub : Table)
    (hsub : env.sampleSubmission = some sub)
    (hprompt : env.baselinePrompt = none)
    (hpxd : sub.columns.contains "PXD" = true)
    (hstr : RawFilesAreStrings sub.rows)
    (hdocs : ∀ p ∈ groupRows sub.rows, DocOK env p.1) :
    (∃ out, (SDRFPipeline.run cfg env).result = .ok out ∧
      out.rows.map Row.idx = sub.rows.map Row.idx ∧
      ∀ r ∈ out.rows, ∀ c ∈ predColumnsOf sub.columns,
        lookupKV r.cells c = some notApplicable) ∧
    (∀ p ∈ groupRows sub.rows, env.pubtext (pyStr p.1) = none →
      pyStr p.1 ∈ (SDRFPipeline.run cfg env).warnings ∧
      ∃ raws, (⟨"", raws, ""⟩ : ExtractCall) ∈ (SDRFPipeline.run cfg env).calls) ∧
    (∀ w ∈ (SDRFPipeline.run cfg env).warnings,
      ∃ p ∈ groupRows sub.rows, env.pubtext (pyStr p.1) = none ∧ w = pyStr p.1) := by
  have hps : loadBaselinePrompt env = "" := by simp [loadBaselinePrompt, hprompt]
  have hexch : get_extractor cfg (loadBaselinePrompt env) = .placeholderE := by
    rw [hps]; rfl
  obtain ⟨calls, warns, rows2, hloop, hF, habs, hwar⟩ :=
    @loopGroups_placeholder_NA env (loadBaselinePrompt env)
      (predColumnsOf sub.columns) (groupRows sub.rows) sub.rows
      hdocs (fun p hp g hg => hstr g (groupRows_sub hp g hg))
  have hmem : "PXD" ∈ sub.columns := by simpa using hpxd
  have hrun : SDRFPipeline.run cfg env = ⟨calls, warns, .ok ⟨sub.columns, rows2⟩⟩ := by
    simp [SDRFPipeline.run, hsub, hpxd, hmem, hexch, hloop, Except.map]
  rw [hrun]
  refine ⟨⟨⟨sub.columns, rows2⟩, rfl, ?_, ?_⟩, ?_, ?_⟩
  · exact forall2_map_idx (fun a b h => h.1) hF
  · intro r hr c hc
    obtain ⟨o, ho, hrel⟩ := forall2_mem_right hF r hr
    obtain ⟨p, hp, hop⟩ := groupRows_covers ho
    exact hrel.2.2.2 ⟨p, hp, o, hop, rfl⟩ c hc
  · intro p hp hnone
    have h2 := habs p hp hnone
    rw [hps] at h2
    exact h2
  · intro w hw
    exact hwar w hw

/-- Witness for C8: the spec's scenario — two rows for `PXD001`
referencing `a.raw` and `b.raw` and no manuscript document — produces a
written table with both prediction cells `Not Applicable`, a warning for
`PXD001`, an extraction call with empty manuscript text, and no other
warnings. -/
theorem c8_per_group_degradation_witness :
    (∃ out, (SDRFPipeline.run ⟨"openai", "k", "m", "om", "u"⟩
        ⟨some ⟨["PXD", "Raw Data File", "c1"],
               [⟨0, [("PXD", Json.str "PXD001"), ("Raw Data File", Json.str "a.raw"),
                     ("c1", Json.str "x")]⟩,
                ⟨1, [("PXD", Json.str "PXD001"), ("Raw Data File", Json.str "b.raw"),
                     ("c1", Json.str "y")]⟩]⟩,
          none, fun _ => none, fun _ => .error .apiError, fun _ => .netFail⟩).result =
        .ok out ∧
      out.rows.map Row.idx =
        ([⟨0, [("PXD", Json.str "PXD001"), ("Raw Data File", Json.str "a.raw"),
               ("c1", Json.str "x")]⟩,
          ⟨1, [("PXD", Json.str "PXD001"), ("Raw Data File", Json.str "b.raw"),
               ("c1", Json.str "y")]⟩] : List Row).map Row.idx ∧
      ∀ r ∈ out.rows, ∀ c ∈ predColumnsOf ["PXD", "Raw Data File", "c1"],
        lookupKV r.cells c = some notApplicable) ∧
    (∀ p ∈ groupRows
        [⟨0, [("PXD", Json.str "PXD001"), ("Raw Data File", Json.str "a.raw"),
              ("c1", Json.str "x")]⟩,
         ⟨1, [("PXD", Json.str "PXD001"), ("Raw Data File", Json.str "b.raw"),
              ("c1", Json.str "y")]⟩],
      (fun _ => (none : Option String)) (pyStr p.1) = none →
      pyStr p.1 ∈ (SDRFPipeline.run ⟨"openai", "k", "m", "om", "u"⟩
        ⟨some ⟨["PXD", "Raw Data File", "c1"],
               [⟨0, [("PXD", Json.str "PXD001"), ("Raw Data File", Json.str "a.raw"),
                     ("c1", Json.str "x")]⟩,
                ⟨1, [("PXD", Json.str "PXD001"), ("Raw Data File", Json.str "b.raw"),
                     ("c1", Json.str "y")]⟩]⟩,
          none, fun _ => none, fun _ => .error .apiError, fun _ => .netFail⟩).warnings ∧
      ∃ raws, (⟨"", raws, ""⟩ : ExtractCall) ∈ (SDRFPipeline.run ⟨"openai", "k", "m", "om", "u"⟩
        ⟨some ⟨["PXD", "Raw Data File", "c1"],
               [⟨0, [("PXD", Json.str "PXD001"), ("Raw Data File", Json.str "a.raw"),
                     ("c1", Json.str "x")]⟩,
                ⟨1, [("PXD", Json.str "PXD001"), ("Raw Data File", Json.str "b.raw"),
                     ("c1", Json.str "y")]⟩]⟩,
          none, fun _ => none, fun _ => .error .apiError, fun _ => .netFail⟩).calls) ∧
    (∀ w ∈ (SDRFPipeline.run ⟨"openai", "k", "m", "om", "u"⟩
        ⟨some ⟨["PXD", "Raw Data File", "c1"],
               [⟨0, [("PXD", Json.str "PXD001"), ("Raw Data File", Json.str "a.raw"),
                     ("c1", Json.str "x")]⟩,
                ⟨1, [("PXD", Json.str "PXD001"), ("Raw Data File", Json.str "b.raw"),
                     ("c1", Json.str "y")]⟩]⟩,
          none, fun _ => none, fun _ => .error .apiError, fun _ => .netFail⟩).warnings,
      ∃ p ∈ groupRows
        [⟨0, [("PXD", Json.str "PXD001"), ("Raw Data File", Json.str "a.raw"),
              ("c1", Json.str "x")]⟩,
         ⟨1, [("PXD", Json.str "PXD001"), ("Raw Data File", Json.str "b.raw"),
              ("c1", Json.str "y")]⟩],
        (fun _ => (none : Option String)) (pyStr p.1) = none ∧ w = pyStr p.1) := by
  apply c8_per_group_degradation ⟨"openai", "k", "m", "om", "u"⟩ _
    ⟨["PXD", "Raw Data File", "c1"],
     [⟨0, [("PXD", Json.str "PXD001"), ("Raw Data File", Json.str "a.raw"),
           ("c1", Json.str "x")]⟩,
      ⟨1, [("PXD", Json.str "PXD001"), ("Raw Data File", Json.str "b.raw"),
           ("c1", Json.str "y")]⟩]⟩ rfl rfl rfl
  · intro r hr
    simp only [List.mem_cons, List.not_mem_nil, or_false] at hr
    rcases hr with rfl | rfl
    · exact ⟨"a.raw", rfl⟩
    · exact ⟨"b.raw", rfl⟩
  · intro p hp
    exact trivial
